import Mathlib

set_option maxHeartbeats 1000000
set_option maxRecDepth 4000

/-!
Shallow embedding of the LUNA atom-group registry core
(`src/scripts/mol/groups.py`) together with the perception
failure path and a spec-modelled shell/fingerprint encoder.

Modelling conventions:

* An `ExtendedAtom` (class not under `src/`; modelled from the spec) is
  identified by its unique serial number (`Nat`).  Static per-atom data
  (3-D coordinate, covalent-adjacency list, parent compound) lives in a
  read-only `Env`; the mutable back-reference set of owning groups lives
  in `Sys.atmRefs`.
* Python objects are mutable and compared partly by identity, so groups
  and interactions live in a heap: `Sys.grpStore` maps a group id (gid)
  to its data, `Sys.interStore` maps an interaction id (iid) to its
  data.  `AtomGroupsManager` then holds gids, and the interaction set
  holds iids.  "The very same object" in the spec becomes "the same id".
* Coordinates are rationals.  The source stores the Euclidean
  (square-rooted) centroid distance; we store its square (`distSq`),
  which determines it: two nonnegative reals are equal iff their
  squares are.
* Python `dict`s are insertion-ordered association lists (`updateA`
  replaces in place, else appends); Python `set`s of ids are lists with
  insert-if-absent; where iteration order of a Python set is not
  observable in the result we use a canonical (sorted, deduplicated)
  list.
* A raised exception caught by a caller is modelled with `Option`:
  `none` is the `KeyError`/`IndexError` path.
-/

/-! ### Association lists (Python dict) and small list helpers -/

def lookupA {α β : Type} [DecidableEq α] : List (α × β) → α → Option β
  | [], _ => none
  | (k, v) :: rest, key => if k = key then some v else lookupA rest key

def updateA {α β : Type} [DecidableEq α] : List (α × β) → α → β → List (α × β)
  | [], key, val => [(key, val)]
  | (k, v) :: rest, key, val =>
      if k = key then (key, val) :: rest else (k, v) :: updateA rest key val

/-- Delete every entry stored under `key` (Python dicts have unique keys,
so this models `del d[key]`). -/
def deleteA {α β : Type} [DecidableEq α] (l : List (α × β)) (key : α) : List (α × β) :=
  l.filter (fun p => decide (p.1 ≠ key))

/-- Keep the first occurrence of every equivalence class, in order: the
deterministic rendering of Python's `list(set(..))` construction. -/
def dedupByAux (eqv : Nat → Nat → Bool) (seen : List Nat) : List Nat → List Nat
  | [] => []
  | x :: xs =>
      if seen.any (fun s => eqv s x) then dedupByAux eqv seen xs
      else x :: dedupByAux eqv (x :: seen) xs

/-- Python `set.add` on a list kept without duplicates. -/
def insertIfAbsent (l : List Nat) (x : Nat) : List Nat :=
  if x ∈ l then l else l ++ [x]

def sortNat (l : List Nat) : List Nat := List.insertionSort (· ≤ ·) l

/-- Lexicographic strict comparison of character lists by code point
(structurally recursive so that it evaluates by reduction; Python's
string `<`). -/
def strLtB : List Char → List Char → Bool
  | [], [] => false
  | [], _ :: _ => true
  | _ :: _, [] => false
  | a :: as, b :: bs =>
      if a.toNat < b.toNat then true
      else if b.toNat < a.toNat then false
      else strLtB as bs

def featLeB (a b : String) : Bool := !(strLtB b.data a.data)

def sortFeat (l : List String) : List String :=
  List.insertionSort (fun a b => featLeB a b = true) l

/-- Canonical form of a Python `set` of atoms: sorted and deduplicated. -/
def canonSet (l : List Nat) : List Nat := sortNat l.dedup

/-! ### Geometry (`mol/interaction/math.py`, consumed via `im.*`) -/

abbrev Point := ℚ × ℚ × ℚ

def sqDist (p q : Point) : ℚ :=
  (p.1 - q.1) * (p.1 - q.1) + (p.2.1 - q.2.1) * (p.2.1 - q.2.1) +
    (p.2.2 - q.2.2) * (p.2.2 - q.2.2)

/-- Mean coordinate (`im.centroid` over `im.atom_coordinates`). -/
def centroid (ps : List Point) : Point :=
  ((ps.map Prod.fst).sum / ps.length,
   (ps.map (fun p => p.2.1)).sum / ps.length,
   (ps.map (fun p => p.2.2)).sum / ps.length)

/-! ### Data model -/

abbrev Feature := String

/-- Heap record of one `AtomGroup` (`groups.py` lines 212-408).
`atoms` is kept sorted (the constructor sorts), `features` is kept
sorted, `inters` is the group's own interaction list (iids),
`hashCache` models `_hash_cache` (`none` = reset; the cached value is
opaque), `recursive` models the back-reference flag and `isPseudo` the
`PseudoAtomGroup` subclass (equality compares classes). -/
structure AtomGroupData where
  atoms : List Nat
  features : List Feature
  inters : List Nat
  hashCache : Option Nat
  recursive : Bool
  isPseudo : Bool
deriving DecidableEq

/-- Modelled from the spec: `InteractionType` (`mol/interaction/type.py`,
not under `src/`) is an edge between two groups with a type, the
interacting-atom subsets on each side and a parameter bag holding the
centroid distance (stored squared, see the header). Interactions are
compared by identity (iid), the default for a Python object. -/
structure InterData where
  src_grp : Nat
  trgt_grp : Nat
  itype : String
  src_atms : List Nat
  trgt_atms : List Nat
  distSq : Option ℚ
deriving DecidableEq

/-- The mutable heap: group store, atom back-references, interaction
store, and fresh-id counters. -/
structure Sys where
  grpStore : List (Nat × AtomGroupData)
  nextGid : Nat
  atmRefs : List (Nat × List Nat)
  interStore : List (Nat × InterData)
  nextIid : Nat
deriving DecidableEq

/-- `AtomGroupsManager` (`groups.py` lines 34-209): the group list
`_atm_grps` and the key index `_child_dict`. -/
structure Manager where
  atm_grps : List Nat
  child_dict : List (List Nat × Nat)
deriving DecidableEq

/-- Read-only per-atom data supplied by external collaborators:
coordinates, the shared covalent-adjacency graph, parent compound. -/
structure Env where
  coord : Nat → Point
  nbhd : Nat → List Nat
  parent : Nat → Nat

/-- One unit of work: the registry plus the attached interaction set
(the interaction manager's collection, modelled from the spec as a set
of iids). -/
structure MState where
  mngr : Manager
  sys : Sys
  inters : List Nat
deriving DecidableEq

instance : Inhabited MState := ⟨⟨⟨[], []⟩, ⟨[], 0, [], [], 0⟩, []⟩⟩

def emptyManager : Manager := ⟨[], []⟩

def emptySys : Sys := ⟨[], 0, [], [], 0⟩

/-! ### Atom group primitives -/

def grpData (sys : Sys) (g : Nat) : Option AtomGroupData := lookupA sys.grpStore g

def featureNames (sys : Sys) (g : Nat) : List Feature :=
  ((grpData sys g).map AtomGroupData.features).getD []

def atomsOf (sys : Sys) (g : Nat) : List Nat :=
  ((grpData sys g).map AtomGroupData.atoms).getD []

def grpInters (sys : Sys) (g : Nat) : List Nat :=
  ((grpData sys g).map AtomGroupData.inters).getD []

/-- `tuple(sorted(atm_grp.atoms))`, the registry key. -/
def keyOf (sys : Sys) (g : Nat) : List Nat := sortNat (atomsOf sys g)

/-- `AtomGroup.__eq__` (lines 381-385): same class, same (sorted) atom
list, same (sorted) feature list.  Dangling ids (impossible for live
Python objects) fall back to id equality. -/
def grpEq (sys : Sys) (g h : Nat) : Bool :=
  match grpData sys g, grpData sys h with
  | some d1, some d2 =>
      decide (d1.isPseudo = d2.isPseudo ∧ d1.atoms = d2.atoms ∧ d1.features = d2.features)
  | _, _ => decide (g = h)

def refsOf (sys : Sys) (a : Nat) : List Nat := (lookupA sys.atmRefs a).getD []

/-- Modelled from the spec: `ExtendedAtom.add_atm_grps` adds the group
to the atom's owning-group set. -/
def atomAddGrp (sys : Sys) (a g : Nat) : Sys :=
  { sys with atmRefs := updateA sys.atmRefs a (insertIfAbsent (refsOf sys a) g) }

/-- Modelled from the spec: `ExtendedAtom.remove_atm_grps` removes the
group from the atom's owning-group set. -/
def atomRemoveGrp (sys : Sys) (a g : Nat) : Sys :=
  { sys with atmRefs := updateA sys.atmRefs a ((refsOf sys a).filter (fun x => decide (x ≠ g))) }

def addRefsAll (sys : Sys) (atoms : List Nat) (g : Nat) : Sys :=
  atoms.foldl (fun s a => atomAddGrp s a g) sys

def removeRefsAll (sys : Sys) (atoms : List Nat) (g : Nat) : Sys :=
  atoms.foldl (fun s a => atomRemoveGrp s a g) sys

/-- `AtomGroup.__init__` (lines 214-232): sort atoms and features,
reset the hash cache, and if `recursive` register a back-reference on
every member atom.  Allocates a fresh gid. -/
def mkAtomGroup (sys : Sys) (atoms : List Nat) (features : List Feature)
    (inters : List Nat) (recursive : Bool) : Nat × Sys :=
  let g := sys.nextGid
  let d : AtomGroupData :=
    { atoms := sortNat atoms, features := sortFeat features, inters := inters,
      hashCache := none, recursive := recursive, isPseudo := false }
  let sys1 : Sys := { sys with grpStore := sys.grpStore ++ [(g, d)], nextGid := g + 1 }
  (g, if recursive then addRefsAll sys1 (sortNat atoms) g else sys1)

/-- `AtomGroup.add_features` (lines 317-320):
`sorted(set(old + new))`, and the hash cache is reset. -/
def add_features (sys : Sys) (g : Nat) (fs : List Feature) : Sys :=
  match grpData sys g with
  | none => sys
  | some d =>
      let d1 := { d with features := sortFeat (d.features ++ fs).dedup, hashCache := none }
      { sys with grpStore := updateA sys.grpStore g d1 }

/-- The `features` setter (lines 260-265): `sorted(features)` (no
dedup), hash cache reset. -/
def set_features (sys : Sys) (g : Nat) (fs : List Feature) : Sys :=
  match grpData sys g with
  | none => sys
  | some d =>
      let d1 := { d with features := sortFeat fs, hashCache := none }
      { sys with grpStore := updateA sys.grpStore g d1 }

/-- `AtomGroup.add_interactions` (lines 327-328): `list(set(old + new))`
by interaction identity; the hash cache is not touched. -/
def add_interactions_grp (sys : Sys) (g : Nat) (is : List Nat) : Sys :=
  match grpData sys g with
  | none => sys
  | some d =>
      let d1 := { d with inters := (d.inters ++ is).dedup }
      { sys with grpStore := updateA sys.grpStore g d1 }

/-! ### AtomGroupsManager operations -/

/-- `add_atm_grps` (lines 73-79): `_atm_grps = list(set(old + new))`
(value-based dedup by `AtomGroup.__eq__`, first occurrence kept), then
`child_dict[key(g)] = g` for every supplied group, unconditionally. -/
def add_atm_grps (m : Manager) (sys : Sys) (gs : List Nat) : Manager :=
  { atm_grps := dedupByAux (grpEq sys) [] (m.atm_grps ++ gs),
    child_dict := gs.foldl (fun cd g => updateA cd (keyOf sys g) g) m.child_dict }

/-- `AtomGroup.clear_refs` (lines 373-376): only a recursive group
removes itself from its member atoms' owning sets. -/
def clear_refs (sys : Sys) (g : Nat) : Sys :=
  match grpData sys g with
  | none => sys
  | some d => if d.recursive then removeRefsAll sys d.atoms g else sys

def removeLoop : Manager × Sys → List Nat → Manager × Sys
  | acc, [] => acc
  | (m, sys), g :: rest =>
      let sys1 := clear_refs sys g
      removeLoop ({ m with child_dict := deleteA m.child_dict (keyOf sys1 g) }, sys1) rest

/-- `remove_atm_grps` (lines 81-93): `_atm_grps = list(set(old) -
set(removed))` (value-based), then per removed group clear the atom
back-references and delete its key from the index. -/
def remove_atm_grps (m : Manager) (sys : Sys) (gs : List Nat) : Manager × Sys :=
  let keep : Nat → Bool := fun h => !(gs.any (fun r => grpEq sys h r))
  removeLoop ({ m with atm_grps := (dedupByAux (grpEq sys) [] m.atm_grps).filter keep }, sys) gs

/-- `new_atm_grp` (lines 95-112), the upsert: look up by key; if absent
construct a recursive `AtomGroup` with no features and register it;
then union in the (non-empty) supplied features and interactions.
Returns the (possibly pre-existing) gid. -/
def new_atm_grp (m : Manager) (sys : Sys) (atoms : List Nat)
    (features : List Feature) (inters : List Nat) : Nat × Manager × Sys :=
  let key := sortNat atoms
  let found :=
    match lookupA m.child_dict key with
    | some g => (g, m, sys)
    | none =>
        let r := mkAtomGroup sys atoms [] [] true
        (r.1, add_atm_grps m r.2 [r.1], r.2)
  let sys2 := if features.isEmpty then found.2.2 else add_features found.2.2 found.1 features
  let sys3 := if inters.isEmpty then sys2 else add_interactions_grp sys2 found.1 inters
  (found.1, found.2.1, sys3)

/-- `filter_by_types` (lines 68-71): groups whose feature-name set is a
superset of `types`, in registry order. -/
def filter_by_types (m : Manager) (sys : Sys) (types : List Feature) : List Nat :=
  m.atm_grps.filter (fun g => types.all (fun t => (featureNames sys g).contains t))

/-- `find_atm_grp` (lines 62-63). -/
def find_atm_grp (m : Manager) (atoms : List Nat) : Option Nat :=
  lookupA m.child_dict (sortNat atoms)

/-! ### Interaction set (spec-modelled manager) -/

def interData (sys : Sys) (i : Nat) : Option InterData := lookupA sys.interStore i

/-- Modelled from the spec: the interaction manager's `filter_by_types`
yields the interactions of the given types (the merger calls it with
`["Hydrophobic"]`; `InteractionsManager` is not under `src/`). -/
def inter_filter_by_types (sys : Sys) (inters : List Nat) (types : List String) : List Nat :=
  inters.filter (fun i =>
    match interData sys i with
    | some d => types.contains d.itype
    | none => false)

/-- Modelled from the spec: `add_interactions` unions new interactions
into the interaction set. -/
def mngr_add_interactions (inters : List Nat) (new : List Nat) : List Nat :=
  new.foldl insertIfAbsent inters

/-- Modelled from the spec: `remove_interactions` removes the given
interactions from the interaction set. -/
def mngr_remove_interactions (inters : List Nat) (rm : List Nat) : List Nat :=
  inters.filter (fun i => !(rm.contains i))

/-! ### Hydrophobic island merger (`merge_hydrophobic_atoms`, lines 114-200) -/

/-- State of the island-building loop (lines 119-149): `islands` is the
`hydrop_islands` dict, `mapping` is `atm_mapping` (serial to island id),
`nextId` is `island_id`. -/
structure IslandSt where
  islands : List (Nat × List Nat)
  mapping : List (Nat × Nat)
  nextId : Nat
deriving DecidableEq

/-- One iteration of the island loop (lines 126-149).  `atoms[0]` on an
empty group and a missing pop are the error (`none`) paths. -/
def islandStep (env : Env) (sys : Sys) (st : IslandSt) (g : Nat) : Option IslandSt := do
  let d ← grpData sys g
  let atm ← d.atoms.head?
  let nbGrps := ((env.nbhd atm).filterMap (lookupA st.mapping)).dedup
  if nbGrps.isEmpty then
    some { islands := updateA st.islands st.nextId
             (canonSet (atm :: (lookupA st.islands st.nextId).getD [])),
           mapping := updateA st.mapping atm st.nextId,
           nextId := st.nextId + 1 }
  else
    let popped := nbGrps.filterMap (lookupA st.islands)
    if popped.length = nbGrps.length then
      let mapping1 := st.mapping.map (fun kv => if nbGrps.contains kv.2 then (kv.1, st.nextId) else kv)
      some { islands := (st.islands.filter (fun kv => !(nbGrps.contains kv.1))) ++
               [(st.nextId, canonSet (atm :: popped.flatten))],
             mapping := updateA mapping1 atm st.nextId,
             nextId := st.nextId + 1 }
    else none

/-- Lines 151-156: upsert one `AtomGroup` with feature `"Hydrophobe"`
per island; returns the island-id-to-gid table. -/
def mkIslandGroups (m : Manager) (sys : Sys) :
    List (Nat × List Nat) → Manager × Sys × List (Nat × Nat)
  | [] => (m, sys, [])
  | (iid, atms) :: rest =>
      let r := new_atm_grp m sys atms ["Hydrophobe"] []
      let rec' := mkIslandGroups r.2.1 r.2.2 rest
      (rec'.1, rec'.2.1, (iid, r.1) :: rec'.2.2)

/-- Lines 161-165: the unordered island pair of one atom-atom
interaction; a `KeyError` on `atm_mapping` is `none`. -/
def pairKeyOf (sys : Sys) (mapping : List (Nat × Nat)) (i : Nat) : Option (Nat × Nat) := do
  let d ← interData sys i
  let sd ← grpData sys d.src_grp
  let td ← grpData sys d.trgt_grp
  let sa ← sd.atoms.head?
  let ta ← td.atoms.head?
  let si ← lookupA mapping sa
  let ti ← lookupA mapping ta
  some (if si ≤ ti then (si, ti) else (ti, si))

/-- Lines 159-167: partition the atom-atom hydrophobic interactions by
island pair (`island_island_inter`). -/
def groupPairs (sys : Sys) (mapping : List (Nat × Nat)) :
    List Nat → Option (List ((Nat × Nat) × List Nat))
  | [] => some []
  | i :: rest => do
      let k ← pairKeyOf sys mapping i
      let buckets ← groupPairs sys mapping rest
      some (updateA buckets k (insertIfAbsent ((lookupA buckets k).getD []) i))

/-- Lines 171-177: per island, the set of atoms actually contributing
to the bucket's interactions (`island_atms`). -/
def islandAtmsOf (sys : Sys) (mapping : List (Nat × Nat)) :
    List Nat → Option (List (Nat × List Nat))
  | [] => some []
  | i :: rest => do
      let acc ← islandAtmsOf sys mapping rest
      let d ← interData sys i
      let sd ← grpData sys d.src_grp
      let td ← grpData sys d.trgt_grp
      let sa ← sd.atoms.head?
      let ta ← td.atoms.head?
      let si ← lookupA mapping sa
      let ti ← lookupA mapping ta
      let acc1 := updateA acc si (canonSet (sa :: (lookupA acc si).getD []))
      some (updateA acc1 ti (canonSet (ta :: (lookupA acc1 ti).getD [])))

/-- Lines 169-187: one island-island `"Hydrophobic"` interaction per
bucket, carrying both contributing-atom subsets and the
centroid-to-centroid distance (stored squared); fresh iids. -/
def mkNewInters (env : Env) (sys : Sys) (mapping : List (Nat × Nat))
    (islandGrp : List (Nat × Nat)) :
    List ((Nat × Nat) × List Nat) → Option (Sys × List Nat)
  | [] => some (sys, [])
  | (k, iids) :: rest =>
    match islandAtmsOf sys mapping iids.reverse with
    | none => none
    | some iatms =>
      match lookupA iatms k.1, lookupA iatms k.2 with
      | some atms1, some atms2 =>
        match lookupA islandGrp k.1, lookupA islandGrp k.2 with
        | some g1, some g2 =>
          let d : InterData :=
            { src_grp := g1, trgt_grp := g2, itype := "Hydrophobic",
              src_atms := atms1, trgt_atms := atms2,
              distSq := some (sqDist (centroid (atms1.map env.coord))
                (centroid (atms2.map env.coord))) }
          let sys1 : Sys :=
            { sys with interStore := sys.interStore ++ [(sys.nextIid, d)], nextIid := sys.nextIid + 1 }
          match mkNewInters env sys1 mapping islandGrp rest with
          | none => none
          | some r => some (r.1, sys.nextIid :: r.2)
        | _, _ => none
      | _, _ => none

/-- Lines 194-200: strip `"Hydrophobic"` from every collected group via
the `features` setter (which re-sorts and resets the hash cache). -/
def stripHydrophobic (sys : Sys) : List Nat → Sys
  | [] => sys
  | g :: rest =>
      let sys1 :=
        match grpData sys g with
        | none => sys
        | some d => set_features sys g (d.features.filter (fun f => decide (f ≠ "Hydrophobic")))
      stripHydrophobic sys1 rest

/-- `merge_hydrophobic_atoms` (lines 114-200), also returning the list
of newly created island-island interactions. -/
def mergeParts (env : Env) (st : MState) : Option (MState × List Nat) :=
  let hydrop := filter_by_types st.mngr st.sys ["Hydrophobic"]
  match hydrop.foldlM (islandStep env st.sys) (⟨[], [], 0⟩ : IslandSt) with
  | none => none
  | some ist =>
    let r1 := mkIslandGroups st.mngr st.sys ist.islands
    let hydropInters := inter_filter_by_types r1.2.1 st.inters ["Hydrophobic"]
    match groupPairs r1.2.1 ist.mapping hydropInters with
    | none => none
    | some buckets =>
      match mkNewInters env r1.2.1 ist.mapping r1.2.2 buckets with
      | none => none
      | some r2 =>
        some (⟨r1.1, stripHydrophobic r2.1 hydrop,
          mngr_remove_interactions (mngr_add_interactions st.inters r2.2) hydropInters⟩, r2.2)

def merge_hydrophobic_atoms (env : Env) (st : MState) : Option MState :=
  (mergeParts env st).map Prod.fst

/-! ### Perceiver: the group-registration loop of `_calculate_properties`
(lines 683-692) with its failure semantics (lines 705-707).

The surrounding molecule construction and atom mapping are external
(RDKit/Open Babel); what is embedded is the loop that turns the feature
oracle's group list into registry upserts.  `trgt_atms[i]` on an unknown
id raises `KeyError`, which the `except` at line 705 turns into a
`False` return with the manager keeping every group upserted so far. -/

structure GroupFeat where
  atm_ids : List Nat
  features : List Feature
deriving DecidableEq

def calcPropsLoop (env : Env) (tc : Nat) (trgtAtms : List Nat) :
    Manager → Sys → List GroupFeat → Bool × Manager × Sys
  | m, sys, [] => (true, m, sys)
  | m, sys, gf :: rest =>
      if gf.atm_ids.all (fun i => trgtAtms.contains i) then
        if gf.atm_ids.any (fun i => decide (env.parent i = tc)) then
          let r := new_atm_grp m sys gf.atm_ids gf.features []
          calcPropsLoop env tc trgtAtms r.2.1 r.2.2 rest
        else calcPropsLoop env tc trgtAtms m sys rest
      else (false, m, sys)

/-! ### Upsert sequences (for the registry invariants) -/

structure UpsertCall where
  atoms : List Nat
  features : List Feature
  inters : List Nat

def applyUpsert (s : Manager × Sys) (c : UpsertCall) : Manager × Sys :=
  let r := new_atm_grp s.1 s.2 c.atoms c.features c.inters
  (r.2.1, r.2.2)

def runFrom (s : Manager × Sys) : List UpsertCall → Manager × Sys
  | [] => s
  | c :: rest => runFrom (applyUpsert s c) rest

/-- A fresh `AtomGroupsManager` fed an arbitrary sequence of
`new_atm_grp` calls. -/
def runUpserts (calls : List UpsertCall) : Manager × Sys :=
  runFrom (emptyManager, emptySys) calls

/-! ### Shell/fingerprint encoder.

Modelled from the spec (section 4.4): `ShellGenerator.create_shells` and
`ShellManager.to_fingerprint` (`luna/mol/interaction/fp/shell.py`) are
not under `src/`; only their caller `Project.create_ifp`
(`src/luna/projects.py` lines 472-479) is.  Level 0 of a seed group is a
canonical identifier of its feature set (optionally qualified by
compound class); level k+1 combines level k's identifier with the
sorted canonical codes of the neighbor groups and interactions found in
the ring between radius k*r and (k+1)*r; shells are hashed and folded
modulo the fingerprint length, deduplicated for a bit fingerprint or
accumulated with multiplicity for a count fingerprint. -/

structure EncGroup where
  features : List String
  compClass : Nat
  center : Point
deriving DecidableEq

structure EncInter where
  a : EncGroup
  b : EncGroup
  itype : String
deriving DecidableEq

structure ShellCfg where
  numLevels : Nat
  radiusStep : ℚ
  diffCompClasses : Bool

def hashStr (s : String) : Nat :=
  s.toList.foldl (fun a c => (a * 31 + c.toNat) % 1000000007) 7

def hashNats (l : List Nat) : Nat :=
  l.foldl (fun a n => (a * 1000003 + n) % 1152921504606846976) 5381

/-- Canonical identifier of one group's feature set, qualified by the
compound class when the flag is on; sorted so that it is independent of
feature iteration order. -/
def canonFeatCode (cfg : ShellCfg) (g : EncGroup) : Nat :=
  hashNats (sortNat (g.features.map hashStr) ++
    (if cfg.diffCompClasses then [g.compClass] else []))

/-- Membership of `h` in seed `g`'s ring number `k` (between radius
`k*r` and `(k+1)*r`). -/
def ringPred (cfg : ShellCfg) (k : Nat) (g h : EncGroup) : Bool :=
  decide (sqDist h.center g.center ≤
    ((k + 1 : ℚ) * cfg.radiusStep) * ((k + 1 : ℚ) * cfg.radiusStep)) &&
  !(decide (sqDist h.center g.center ≤ ((k : ℚ) * cfg.radiusStep) * ((k : ℚ) * cfg.radiusStep)))

/-- The canonical shell identifier of seed `g` at a given level: the
previous level's identifier combined with the sorted codes of ring
neighbors and ring interactions. -/
def shellId (cfg : ShellCfg) (reg : List EncGroup) (inters : List EncInter)
    (g : EncGroup) : Nat → Nat
  | 0 => hashNats [canonFeatCode cfg g]
  | k + 1 =>
      let nbs := reg.filter (fun h => decide (h ≠ g) && ringPred cfg k g h)
      let ics := inters.filter (fun t =>
        (decide (t.a = g) && ringPred cfg k g t.b) ||
        (decide (t.b = g) && ringPred cfg k g t.a))
      hashNats (shellId cfg reg inters g k ::
        (sortNat (nbs.map (canonFeatCode cfg)) ++ sortNat (ics.map (fun t => hashStr t.itype))))

/-- All shell identifiers: `numLevels` levels for every seed group. -/
def create_shells (cfg : ShellCfg) (reg : List EncGroup) (inters : List EncInter) : List Nat :=
  reg.flatMap (fun g => (List.range cfg.numLevels).map (shellId cfg reg inters g))

inductive Fingerprint where
  | bits : Finset Nat → Fingerprint
  | counts : Multiset Nat → Fingerprint
deriving DecidableEq

/-- Fold every shell identifier modulo `foldSize`; deduplicate for the
bit fingerprint, keep multiplicity for the count fingerprint (the two
modes are mutually exclusive, `count_fp` being the `else` arm). -/
def to_fingerprint (foldSize : Nat) (uniqueShells : Bool) (countFp : Bool)
    (shells : List Nat) : Fingerprint :=
  if uniqueShells && !countFp then .bits (shells.map (· % foldSize)).toFinset
  else .counts ↑(shells.map (· % foldSize))

/-! ### Concrete example inputs -/

/-- Static atom data of the worked island-merge example: atoms 1, 2, 3
are the chain C1-C2-C3 (covalent edges 1-2 and 2-3), atom 10 is the
external hydrophobic atom X. -/
def exEnv : Env :=
  { coord := fun n =>
      match n with
      | 1 => (0, 0, 0)
      | 2 => (1, 0, 0)
      | 3 => (2, 0, 0)
      | 10 => (1, 1, 0)
      | _ => (0, 0, 0),
    nbhd := fun n =>
      match n with
      | 1 => [2]
      | 2 => [1, 3]
      | 3 => [2]
      | _ => [],
    parent := fun _ => 0 }

def mkGrpD (atoms : List Nat) (feats : List Feature) : AtomGroupData :=
  { atoms := atoms, features := feats, inters := [], hashCache := none,
    recursive := true, isPseudo := false }

/-- Heap of the worked example: four single-atom `"Hydrophobic"` groups
(gids 0-3 for atoms 1, 2, 3, 10) and two atom-atom `"Hydrophobic"`
interactions C1-X (iid 0) and C3-X (iid 1). -/
def exSys0 : Sys :=
  { grpStore := [(0, mkGrpD [1] ["Hydrophobic"]), (1, mkGrpD [2] ["Hydrophobic"]),
                 (2, mkGrpD [3] ["Hydrophobic"]), (3, mkGrpD [10] ["Hydrophobic"])],
    nextGid := 4,
    atmRefs := [(1, [0]), (2, [1]), (3, [2]), (10, [3])],
    interStore := [(0, ⟨0, 3, "Hydrophobic", [1], [10], none⟩),
                   (1, ⟨2, 3, "Hydrophobic", [3], [10], none⟩)],
    nextIid := 2 }

def exMngr0 : Manager :=
  { atm_grps := [0, 1, 2, 3],
    child_dict := [([1], 0), ([2], 1), ([3], 2), ([10], 3)] }

def exSt0 : MState := ⟨exMngr0, exSys0, [0, 1]⟩

/-- The state after one run of the merger on the worked example. -/
def exSt1 : MState := (merge_hydrophobic_atoms exEnv exSt0).getD default

/-- Registry with two distinct `AtomGroup` objects over the same atom
set `[1]` but different features: gid 0 (feature `"A"`, registered) and
gid 1 (no features, not yet registered). -/
def exSys5 : Sys :=
  { grpStore := [(0, mkGrpD [1] ["A"]), (1, mkGrpD [1] [])],
    nextGid := 2, atmRefs := [(1, [0, 1])], interStore := [], nextIid := 0 }

def exMngr5 : Manager := { atm_grps := [0], child_dict := [([1], 0)] }

/-- Registry with one two-atom group carrying features
`["Donor", "Hydrophobic"]`. -/
def exSys8 : Sys :=
  { grpStore := [(0, mkGrpD [1, 2] ["Donor", "Hydrophobic"])],
    nextGid := 1, atmRefs := [(1, [0]), (2, [0])], interStore := [], nextIid := 0 }

def exMngr8 : Manager := { atm_grps := [0], child_dict := [([1, 2], 0)] }

/-- A merged-like clean state: no `"Hydrophobic"`-tagged group, no
`"Hydrophobic"`-typed interaction. -/
def exStClean : MState :=
  ⟨⟨[0], [([1], 0)]⟩,
   { grpStore := [(0, mkGrpD [1] ["Donor"])], nextGid := 1,
     atmRefs := [(1, [0])], interStore := [], nextIid := 0 },
   []⟩

/-- Helper state for the C5 witness: gid 1 is a distinct object that is
value-equal (same atoms, same features) to the registered gid 0. -/
def exSys5b : Sys :=
  { grpStore := [(0, mkGrpD [1] []), (1, mkGrpD [1] [])],
    nextGid := 2, atmRefs := [(1, [0, 1])], interStore := [], nextIid := 0 }

/-! ### Association-list lemmas -/

theorem lookupA_eq_none {α β : Type} [DecidableEq α] (l : List (α × β)) (k : α) :
    lookupA l k = none ↔ ∀ p ∈ l, p.1 ≠ k := by
  induction l with
  | nil => simp [lookupA]
  | cons p rest ih =>
      obtain ⟨k2, v⟩ := p
      by_cases h : k2 = k
      · subst h; simp [lookupA]
      · simp [lookupA, h, ih]

theorem lookupA_mem {α β : Type} [DecidableEq α] {l : List (α × β)} {k : α} {v : β}
    (h : lookupA l k = some v) : (k, v) ∈ l := by
  induction l with
  | nil => simp [lookupA] at h
  | cons p rest ih =>
      obtain ⟨k2, v2⟩ := p
      by_cases hk : k2 = k
      · subst hk
        simp [lookupA] at h
        subst h
        exact List.mem_cons_self _ _
      · simp [lookupA, hk] at h
        exact List.mem_cons_of_mem _ (ih h)

theorem lookupA_append_left {α β : Type} [DecidableEq α] {l : List (α × β)} {k : α} {v : β}
    (l2 : List (α × β)) (h : lookupA l k = some v) : lookupA (l ++ l2) k = some v := by
  induction l with
  | nil => simp [lookupA] at h
  | cons p rest ih =>
      obtain ⟨k2, v2⟩ := p
      by_cases hk : k2 = k
      · subst hk; simp_all [lookupA]
      · simp_all [lookupA, hk]

theorem lookupA_append_right {α β : Type} [DecidableEq α] {l : List (α × β)} {k : α}
    (l2 : List (α × β)) (h : lookupA l k = none) : lookupA (l ++ l2) k = lookupA l2 k := by
  induction l with
  | nil => simp
  | cons p rest ih =>
      obtain ⟨k2, v2⟩ := p
      by_cases hk : k2 = k
      · subst hk; simp [lookupA] at h
      · simp_all [lookupA, hk]

theorem lookupA_updateA_self {α β : Type} [DecidableEq α] (l : List (α × β)) (k : α) (v : β) :
    lookupA (updateA l k v) k = some v := by
  induction l with
  | nil => simp [updateA, lookupA]
  | cons p rest ih =>
      obtain ⟨k2, v2⟩ := p
      by_cases hk : k2 = k
      · subst hk; simp [updateA, lookupA]
      · simp [updateA, lookupA, hk, ih]

theorem lookupA_updateA_ne {α β : Type} [DecidableEq α] (l : List (α × β)) {k k2 : α} (v : β)
    (h : k2 ≠ k) : lookupA (updateA l k v) k2 = lookupA l k2 := by
  induction l with
  | nil =>
      simp only [updateA, lookupA]
      rw [if_neg (fun hh => h hh.symm)]
  | cons p rest ih =>
      obtain ⟨k3, v3⟩ := p
      by_cases hk : k3 = k
      · subst hk
        simp only [updateA, if_pos rfl, lookupA]
        rw [if_neg (fun hh => h hh.symm), if_neg (fun hh => h hh.symm)]
      · simp only [updateA, if_neg hk, lookupA]
        by_cases hk2 : k3 = k2
        · simp [hk2]
        · simp [hk2, ih]

theorem updateA_of_lookup_none {α β : Type} [DecidableEq α] {l : List (α × β)} {k : α} (v : β)
    (h : lookupA l k = none) : updateA l k v = l ++ [(k, v)] := by
  induction l with
  | nil => simp [updateA]
  | cons p rest ih =>
      obtain ⟨k2, v2⟩ := p
      by_cases hk : k2 = k
      · subst hk; simp [lookupA] at h
      · simp [lookupA, hk] at h
        simp [updateA, hk, ih h]

theorem mem_updateA {α β : Type} [DecidableEq α] {l : List (α × β)} {k : α} {v : β}
    {p : α × β} (h : p ∈ updateA l k v) : p = (k, v) ∨ p ∈ l := by
  induction l with
  | nil => simpa [updateA] using h
  | cons q rest ih =>
      obtain ⟨k2, v2⟩ := q
      by_cases hk : k2 = k
      · subst hk
        simp only [updateA, if_pos rfl] at h
        rcases List.mem_cons.1 h with h1 | h1
        · exact Or.inl h1
        · exact Or.inr (List.mem_cons_of_mem _ h1)
      · simp only [updateA, if_neg hk] at h
        rcases List.mem_cons.1 h with h1 | h1
        · exact Or.inr (h1 ▸ List.mem_cons_self _ _)
        · rcases ih h1 with h2 | h2
          · exact Or.inl h2
          · exact Or.inr (List.mem_cons_of_mem _ h2)

theorem mem_deleteA {α β : Type} [DecidableEq α] {l : List (α × β)} {k : α} {p : α × β}
    (h : p ∈ deleteA l k) : p ∈ l ∧ p.1 ≠ k := by
  have := List.mem_filter.1 h
  exact ⟨this.1, by simpa using this.2⟩

theorem lookupA_deleteA_self {α β : Type} [DecidableEq α] (l : List (α × β)) (k : α) :
    lookupA (deleteA l k) k = none := by
  rw [lookupA_eq_none]
  intro p hp
  exact (mem_deleteA hp).2

/-! ### Sorting and dedup lemmas -/

theorem sortNat_eq_of_perm {l1 l2 : List Nat} (h : l1.Perm l2) : sortNat l1 = sortNat l2 :=
  List.eq_of_perm_of_sorted
    ((List.perm_insertionSort _ l1).trans (h.trans (List.perm_insertionSort _ l2).symm))
    (List.sorted_insertionSort _ l1) (List.sorted_insertionSort _ l2)

theorem sortNat_toFinset (l : List Nat) : (sortNat l).toFinset = l.toFinset :=
  List.toFinset_eq_of_perm _ _ (List.perm_insertionSort _ l)

theorem sortFeat_toFinset (l : List String) : (sortFeat l).toFinset = l.toFinset :=
  List.toFinset_eq_of_perm _ _ (List.perm_insertionSort _ l)

theorem perm_flatMap_right {α β : Type} {l1 l2 : List α} (f : α → List β) (h : l1.Perm l2) :
    (l1.flatMap f).Perm (l2.flatMap f) := by
  induction h with
  | nil => rfl
  | cons x _ ih => simpa using ih.append_left (f x)
  | swap x y l =>
      simp only [List.flatMap_cons, ← List.append_assoc]
      exact (@List.perm_append_comm _ (f y) (f x)).append_right _
  | trans _ _ ih1 ih2 => exact ih1.trans ih2

/-- The feature/interaction tail of `new_atm_grp` (lines 106-110): the
non-empty supplied features and interactions are unioned into the
returned group. -/
def applyFI (sys : Sys) (g : Nat) (f : List Feature) (i : List Nat) : Sys :=
  let sys2 := if f.isEmpty then sys else add_features sys g f
  if i.isEmpty then sys2 else add_interactions_grp sys2 g i

/-- The registry invariant an upsert-only history maintains: the group
list mirrors the key index, index keys are pairwise distinct, every
index entry points at a live group whose (sorted) atom list is that
entry's key, and all allocated ids are below the counter. -/
def InvM (m : Manager) (sys : Sys) : Prop :=
  m.atm_grps = m.child_dict.map Prod.snd ∧
  (m.child_dict.map Prod.fst).Pairwise (· ≠ ·) ∧
  (∀ p ∈ m.child_dict, ∃ d, lookupA sys.grpStore p.2 = some d ∧ d.atoms = p.1 ∧
    sortNat d.atoms = d.atoms) ∧
  (∀ p ∈ m.child_dict, p.2 < sys.nextGid) ∧
  (∀ q ∈ sys.grpStore, q.1 < sys.nextGid)

set_option allowUnsafeReducibility true
attribute [local semireducible] Rat.add Rat.sub Rat.mul Rat.inv

/-! ### Claim theorems -/

/-- C2: on the worked example (single-atom hydrophobic groups over C1,
C2, C3 and X, covalent chain C1-C2-C3, atom-atom hydrophobic
interactions C1-X and C3-X), the merger forms the single island
{C1,C2,C3} (besides X's own island), upserts it as one `"Hydrophobe"`
group, collapses the two interactions into exactly one island-island
`"Hydrophobic"` interaction between that island's group and X's island
group whose distance parameter (stored squared) is the (squared)
Euclidean distance between the centroid of the contributing atoms
{C1,C3} and X's centroid, and leaves neither original atom-atom
hydrophobic interaction in the interaction set. -/
theorem merge_worked_example :
    merge_hydrophobic_atoms exEnv exSt0 = some exSt1 ∧
    ((filter_by_types exMngr0 exSys0 ["Hydrophobic"]).foldlM (islandStep exEnv exSys0)
        (⟨[], [], 0⟩ : IslandSt)).map IslandSt.islands = some [(2, [1, 2, 3]), (3, [10])] ∧
    exSt1.mngr.atm_grps = [0, 1, 2, 3, 4] ∧
    atomsOf exSt1.sys 4 = [1, 2, 3] ∧
    featureNames exSt1.sys 4 = ["Hydrophobe"] ∧
    exSt1.inters = [2] ∧
    interData exSt1.sys 2 =
      some ⟨4, 3, "Hydrophobic", [1, 3], [10],
        some (sqDist (centroid [exEnv.coord 1, exEnv.coord 3]) (centroid [exEnv.coord 10]))⟩ ∧
    inter_filter_by_types exSys0 [0, 1] ["Hydrophobic"] = [0, 1] ∧
    (0 ∉ exSt1.inters ∧ 1 ∉ exSt1.inters) := by
  decide

/-- C6, counterexample: on the worked example the first merger run
succeeds, but re-running the merger on the merged state is not a no-op:
it fails with the modelled `KeyError` (the island-island interaction
still has type `"Hydrophobic"`, is collected again, and its atoms are
looked up in the now-empty `atm_mapping`). -/
theorem merge_rerun_crashes_cex :
    (merge_hydrophobic_atoms exEnv exSt0).isSome = true ∧
    (merge_hydrophobic_atoms exEnv exSt0).bind (merge_hydrophobic_atoms exEnv) = none := by
  decide

/-- C10: when the atom-set key is already present, `new_atm_grp` with
no features and no interactions is a pure lookup: it returns the
existing group and leaves the manager and the whole heap (features,
interactions, hash caches, group collection, key index) unchanged. -/
theorem new_atm_grp_pure_lookup (m : Manager) (sys : Sys) (atoms : List Nat) (g : Nat)
    (h : lookupA m.child_dict (sortNat atoms) = some g) :
    new_atm_grp m sys atoms [] [] = (g, m, sys) := by
  simp [new_atm_grp, h]

/-- C10, witness: a pure-lookup upsert on the worked example's registry. -/
theorem new_atm_grp_pure_lookup_witness :
    new_atm_grp exMngr0 exSys0 [1] [] [] = (0, exMngr0, exSys0) :=
  new_atm_grp_pure_lookup exMngr0 exSys0 [1] 0 (by decide)

theorem updateA_idem {α β : Type} [DecidableEq α] (l : List (α × β)) (k : α) (v : β) :
    updateA (updateA l k v) k v = updateA l k v := by
  induction l with
  | nil => simp [updateA]
  | cons p rest ih =>
      obtain ⟨k2, v2⟩ := p
      by_cases h : k2 = k
      · subst h; simp [updateA]
      · simp [updateA, h, ih]

theorem dedupByAux_eq_self (eqv : Nat → Nat → Bool) :
    ∀ (l seen : List Nat), (∀ s ∈ seen, ∀ x ∈ l, eqv s x = false) →
      l.Pairwise (fun a b => eqv a b = false) → dedupByAux eqv seen l = l
  | [], _, _, _ => rfl
  | x :: xs, seen, hseen, hpw => by
      have hx : (seen.any (fun s => eqv s x)) = false := by
        simp only [List.any_eq_false]
        intro s hs
        simp [hseen s hs x (List.mem_cons_self _ _)]
      rw [dedupByAux, hx]
      simp only [Bool.false_eq_true, if_false]
      congr 1
      apply dedupByAux_eq_self eqv xs (x :: seen)
      · intro s hs y hy
        rcases List.mem_cons.1 hs with h | h
        · subst h; exact (List.pairwise_cons.1 hpw).1 y hy
        · exact hseen s h y (List.mem_cons_of_mem _ hy)
      · exact (List.pairwise_cons.1 hpw).2

theorem dedupByAux_append_dup (eqv : Nat → Nat → Bool) :
    ∀ (l seen : List Nat) (g : Nat), l.Pairwise (fun a b => eqv a b = false) →
      (∀ s ∈ seen, ∀ x ∈ l, eqv s x = false) →
      (∃ h, (h ∈ seen ∨ h ∈ l) ∧ eqv h g = true) →
      dedupByAux eqv seen (l ++ [g]) = l
  | [], seen, g, _, _, hdup => by
      obtain ⟨h, hmem, heq⟩ := hdup
      rcases hmem with hs | hl
      · have : (seen.any (fun s => eqv s g)) = true := List.any_eq_true.2 ⟨h, hs, heq⟩
        simp [dedupByAux, this]
      · simp at hl
  | x :: xs, seen, g, hpw, hseen, hdup => by
      have hx : (seen.any (fun s => eqv s x)) = false := by
        simp only [List.any_eq_false]
        intro s hs
        simp [hseen s hs x (List.mem_cons_self _ _)]
      rw [List.cons_append, dedupByAux, hx]
      simp only [Bool.false_eq_true, if_false]
      congr 1
      apply dedupByAux_append_dup eqv xs (x :: seen) g (List.pairwise_cons.1 hpw).2
      · intro s hs y hy
        rcases List.mem_cons.1 hs with h | h
        · subst h; exact (List.pairwise_cons.1 hpw).1 y hy
        · exact hseen s h y (List.mem_cons_of_mem _ hy)
      · obtain ⟨h, hmem, heq⟩ := hdup
        refine ⟨h, ?_, heq⟩
        rcases hmem with hs | hl
        · exact Or.inl (List.mem_cons_of_mem _ hs)
        · rcases List.mem_cons.1 hl with h1 | h1
          · exact Or.inl (h1 ▸ List.mem_cons_self _ _)
          · exact Or.inr h1

/-- C5, counterexample: gid 1 has the same atom-set key as the
registered gid 0 (`[1]`), but `add_atm_grps` still inserts it (dedup is
by `(atoms, features)` value, and 1's features differ) and overwrites
the index entry, so adding a group with an already-present key is not
the identity the claim asserts. -/
theorem add_atm_grps_key_duplicate_cex :
    keyOf exSys5 1 = keyOf exSys5 0 ∧ 0 ∈ exMngr5.atm_grps ∧
    (add_atm_grps exMngr5 exSys5 [1]).atm_grps ≠ exMngr5.atm_grps ∧
    lookupA (add_atm_grps exMngr5 exSys5 [1]).child_dict [1] = some 1 := by
  decide

/-- C5 amended: `add_atm_grps` deduplicates by `AtomGroup.__eq__`
((atoms, features) value equality), not by atom-set key, and
unconditionally (re)writes the index entry of each supplied group's
key; it is idempotent only for exact (atoms, features) duplicates: on a
registry without value-duplicates, adding a group value-equal to a
member leaves the collection unchanged, overwrites the index entry, and
a second identical add changes nothing further. -/
theorem add_atm_grps_value_dedup (m : Manager) (sys : Sys) (g : Nat)
    (hnd : m.atm_grps.Pairwise (fun a b => grpEq sys a b = false))
    (hdup : ∃ h ∈ m.atm_grps, grpEq sys h g = true) :
    (add_atm_grps m sys [g]).atm_grps = m.atm_grps ∧
    (add_atm_grps m sys [g]).child_dict = updateA m.child_dict (keyOf sys g) g ∧
    add_atm_grps (add_atm_grps m sys [g]) sys [g] = add_atm_grps m sys [g] := by
  obtain ⟨h, hmem, heq⟩ := hdup
  have hgrps : ∀ cd : List (List Nat × Nat),
      dedupByAux (grpEq sys) [] (m.atm_grps ++ [g]) = m.atm_grps := by
    intro _
    exact dedupByAux_append_dup _ _ _ _ hnd (by intro s hs; simp at hs)
      ⟨h, Or.inr hmem, heq⟩
  refine ⟨hgrps [], rfl, ?_⟩
  show add_atm_grps ⟨dedupByAux (grpEq sys) [] (m.atm_grps ++ [g]), _⟩ sys [g] = _
  rw [hgrps []]
  unfold add_atm_grps
  simp only [List.foldl_cons, List.foldl_nil]
  rw [hgrps [], updateA_idem]

/-- C5, witness: adding an exact value-duplicate (gid 1, equal to the
registered gid 0) twice equals adding it once. -/
theorem add_atm_grps_value_dedup_witness :
    (add_atm_grps exMngr5 exSys5b [1]).atm_grps = exMngr5.atm_grps ∧
    (add_atm_grps exMngr5 exSys5b [1]).child_dict =
      updateA exMngr5.child_dict (keyOf exSys5b 1) 1 ∧
    add_atm_grps (add_atm_grps exMngr5 exSys5b [1]) exSys5b [1] =
      add_atm_grps exMngr5 exSys5b [1] :=
  add_atm_grps_value_dedup exMngr5 exSys5b 1 (by decide) ⟨0, by decide, by decide⟩

/-- C8, counterexample: the group gid 0 has feature set
`["Donor", "Hydrophobic"]` (not equal to `{"Hydrophobic"}`) and two
atoms, yet the merger's first-step collection
(`filter_by_types(["Hydrophobic"])`) picks it up: the filter is a
superset test, and nothing enforces single-atom groups. -/
theorem filter_hydrophobic_superset_cex :
    filter_by_types exMngr8 exSys8 ["Hydrophobic"] = [0] ∧
    featureNames exSys8 0 ≠ ["Hydrophobic"] ∧
    (atomsOf exSys8 0).length ≠ 1 := by
  decide

/-- C8 amended: the merger's first step collects exactly the registry
groups whose feature-name set contains `"Hydrophobic"` (a superset
test, not an equality test, and with no single-atom guarantee). -/
theorem filter_by_types_membership (m : Manager) (sys : Sys) (g : Nat) :
    g ∈ filter_by_types m sys ["Hydrophobic"] ↔
      g ∈ m.atm_grps ∧ "Hydrophobic" ∈ featureNames sys g := by
  simp [filter_by_types, List.mem_filter]

/-- C4, counterexample: processing the feature-oracle output
`[([1], Hydrophobic), ([9], Donor)]` for a compound upserts the group
over atom 1 and then fails on the unknown atom id 9 (`KeyError` on
`trgt_atms`); perception of the compound reports failure, but the
registry is no longer what it was before the compound was processed:
the partial group stays registered. -/
theorem calc_props_partial_registration_cex :
    (calcPropsLoop exEnv 0 [1, 5] emptyManager emptySys
        [⟨[1], ["Hydrophobic"]⟩, ⟨[9], ["Donor"]⟩]).1 = false ∧
    (calcPropsLoop exEnv 0 [1, 5] emptyManager emptySys
        [⟨[1], ["Hydrophobic"]⟩, ⟨[9], ["Donor"]⟩]).2.1.atm_grps ≠ emptyManager.atm_grps := by
  decide

/-- C4 amended: when perception of a compound fails partway through the
group-registration loop, the failure is reported (`False`), but the
groups upserted before the failing entry remain registered: the
resulting registry is exactly the one obtained by successfully
processing the prefix before the failure, with no rollback. -/
theorem calc_props_failure_keeps_prefix (env : Env) (tc : Nat) (ta : List Nat)
    (m : Manager) (sys : Sys) (gs1 : List GroupFeat) (bad : GroupFeat) (gs2 : List GroupFeat)
    (h1 : ∀ gf ∈ gs1, gf.atm_ids.all (fun i => ta.contains i) = true)
    (h2 : bad.atm_ids.all (fun i => ta.contains i) = false) :
    calcPropsLoop env tc ta m sys (gs1 ++ bad :: gs2) =
      (false, (calcPropsLoop env tc ta m sys gs1).2) := by
  induction gs1 generalizing m sys with
  | nil => simp only [List.nil_append, calcPropsLoop, h2, Bool.false_eq_true, if_false]
  | cons gf rest ih =>
      have hgf := h1 gf (List.mem_cons_self _ _)
      have hrest : ∀ x ∈ rest, x.atm_ids.all (fun i => ta.contains i) = true :=
        fun x hx => h1 x (List.mem_cons_of_mem _ hx)
      simp only [List.cons_append, calcPropsLoop, hgf, if_true]
      by_cases hp : (gf.atm_ids.any fun i => decide (env.parent i = tc)) = true
      · rw [if_pos hp, if_pos hp]
        exact ih _ _ hrest
      · rw [if_neg hp, if_neg hp]
        exact ih _ _ hrest

/-- C4 amended, witness: the concrete failing run equals the prefix run
with a `False` flag. -/
theorem calc_props_failure_keeps_prefix_witness :
    calcPropsLoop exEnv 0 [1, 5] emptyManager emptySys
        [⟨[1], ["Hydrophobic"]⟩, ⟨[9], ["Donor"]⟩] =
      (false, (calcPropsLoop exEnv 0 [1, 5] emptyManager emptySys
        [⟨[1], ["Hydrophobic"]⟩]).2) :=
  calc_props_failure_keeps_prefix exEnv 0 [1, 5] emptyManager emptySys
    [⟨[1], ["Hydrophobic"]⟩] ⟨[9], ["Donor"]⟩ [] (by decide) (by decide)

theorem mngr_remove_interactions_nil (l : List Nat) : mngr_remove_interactions l [] = l := by
  unfold mngr_remove_interactions
  rw [List.filter_eq_self]
  intro a _
  rfl

/-- C6 amended: re-running the merger is a no-op only on a state with
no `"Hydrophobic"`-tagged group and no `"Hydrophobic"`-typed
interaction; after a first run the former always holds but the latter
fails whenever island-island interactions were created (they are typed
`"Hydrophobic"` too), and then the second run raises `KeyError`
(see the counterexample) instead of being a no-op. -/
theorem merge_noop_on_clean (env : Env) (st : MState)
    (hg : filter_by_types st.mngr st.sys ["Hydrophobic"] = [])
    (hi : inter_filter_by_types st.sys st.inters ["Hydrophobic"] = []) :
    merge_hydrophobic_atoms env st = some st := by
  unfold merge_hydrophobic_atoms mergeParts
  rw [hg]
  simp only [List.foldlM_nil, Option.pure_def, Option.some_bind, mkIslandGroups, hi,
    groupPairs, mkNewInters, mngr_add_interactions, List.foldl_nil,
    mngr_remove_interactions_nil, stripHydrophobic, Option.map_some]
  rfl

/-- C6 amended, witness: the merger is a no-op on a clean state. -/
theorem merge_noop_on_clean_witness :
    merge_hydrophobic_atoms exEnv exStClean = some exStClean :=
  merge_noop_on_clean exEnv exStClean (by decide) (by decide)

/-! ### Removal lemmas (C7) -/

theorem removeRefsAll_grpStore : ∀ (atoms : List Nat) (sys : Sys) (g : Nat),
    (removeRefsAll sys atoms g).grpStore = sys.grpStore
  | [], _, _ => rfl
  | a :: as, sys, g => by
      show (removeRefsAll (atomRemoveGrp sys a g) as g).grpStore = _
      rw [removeRefsAll_grpStore as]
      rfl

theorem clear_refs_grpStore (sys : Sys) (g : Nat) :
    (clear_refs sys g).grpStore = sys.grpStore := by
  unfold clear_refs
  split
  · rfl
  · split
    · exact removeRefsAll_grpStore _ _ _
    · rfl

theorem refsOf_atomRemoveGrp (sys : Sys) (a g b : Nat) :
    refsOf (atomRemoveGrp sys a g) b =
      if b = a then (refsOf sys a).filter (fun x => decide (x ≠ g)) else refsOf sys b := by
  by_cases hb : b = a
  · subst hb
    rw [if_pos rfl]
    show (lookupA (updateA sys.atmRefs b _) b).getD [] = _
    rw [lookupA_updateA_self]
    rfl
  · rw [if_neg hb]
    show (lookupA (updateA sys.atmRefs a _) b).getD [] = _
    rw [lookupA_updateA_ne _ _ hb]
    rfl

theorem refsOf_removeRefsAll_subset : ∀ (atoms : List Nat) (sys : Sys) (g b x : Nat),
    x ∈ refsOf (removeRefsAll sys atoms g) b → x ∈ refsOf sys b
  | [], _, _, _, _, h => h
  | a :: as, sys, g, b, x, h => by
      have h1 := refsOf_removeRefsAll_subset as (atomRemoveGrp sys a g) g b x h
      rw [refsOf_atomRemoveGrp] at h1
      by_cases hb : b = a
      · rw [if_pos hb] at h1
        exact hb ▸ (List.mem_filter.1 h1).1
      · rw [if_neg hb] at h1
        exact h1

theorem g_not_mem_refs_removeRefsAll : ∀ (atoms : List Nat) (sys : Sys) (g a : Nat),
    a ∈ atoms → g ∉ refsOf (removeRefsAll sys atoms g) a
  | [], _, _, a, ha => absurd ha (List.not_mem_nil a)
  | c :: cs, sys, g, a, ha => by
      by_cases hac : a ∈ cs
      · exact g_not_mem_refs_removeRefsAll cs (atomRemoveGrp sys c g) g a hac
      · have hc : a = c := by
          rcases List.mem_cons.1 ha with h | h
          · exact h
          · exact absurd h hac
        subst hc
        intro hmem
        have h1 := refsOf_removeRefsAll_subset cs (atomRemoveGrp sys a g) g a g hmem
        rw [refsOf_atomRemoveGrp, if_pos rfl] at h1
        have h2 := (List.mem_filter.1 h1).2
        simp at h2

theorem refsOf_clear_refs_subset (sys : Sys) (g b x : Nat)
    (h : x ∈ refsOf (clear_refs sys g) b) : x ∈ refsOf sys b := by
  unfold clear_refs at h
  split at h
  · exact h
  · split at h
    · exact refsOf_removeRefsAll_subset _ _ _ _ _ h
    · exact h

theorem clear_refs_clears (sys : Sys) (g : Nat) (d : AtomGroupData)
    (hd : grpData sys g = some d) (hrec : d.recursive = true)
    (a : Nat) (ha : a ∈ d.atoms) : g ∉ refsOf (clear_refs sys g) a := by
  unfold clear_refs
  split
  · exact fun hmem => by
      rename_i heq
      rw [hd] at heq
      cases heq
  · rename_i d2 heq
    rw [hd] at heq
    cases heq
    rw [if_pos hrec]
    exact g_not_mem_refs_removeRefsAll d.atoms sys g a ha

theorem removeLoop_append : ∀ (l1 l2 : List Nat) (acc : Manager × Sys),
    removeLoop acc (l1 ++ l2) = removeLoop (removeLoop acc l1) l2
  | [], _, _ => rfl
  | x :: xs, l2, acc => by
      obtain ⟨m, sys⟩ := acc
      show removeLoop _ (xs ++ l2) = _
      rw [removeLoop_append xs]
      rfl

theorem removeLoop_grpStore : ∀ (l : List Nat) (acc : Manager × Sys),
    (removeLoop acc l).2.grpStore = acc.2.grpStore
  | [], _ => rfl
  | x :: xs, acc => by
      obtain ⟨m, sys⟩ := acc
      show (removeLoop _ xs).2.grpStore = _
      rw [removeLoop_grpStore xs]
      exact clear_refs_grpStore sys x

theorem removeLoop_refs_subset : ∀ (l : List Nat) (acc : Manager × Sys) (b x : Nat),
    x ∈ refsOf (removeLoop acc l).2 b → x ∈ refsOf acc.2 b
  | [], _, _, _, h => h
  | c :: cs, acc, b, x, h => by
      obtain ⟨m, sys⟩ := acc
      have h1 := removeLoop_refs_subset cs _ b x h
      exact refsOf_clear_refs_subset sys c b x h1

theorem removeLoop_child_subset : ∀ (l : List Nat) (acc : Manager × Sys) (p : List Nat × Nat),
    p ∈ (removeLoop acc l).1.child_dict → p ∈ acc.1.child_dict
  | [], _, _, h => h
  | c :: cs, acc, p, h => by
      obtain ⟨m, sys⟩ := acc
      have h1 := removeLoop_child_subset cs _ p h
      exact (mem_deleteA h1).1

theorem keyOf_congr {s1 s2 : Sys} (h : s1.grpStore = s2.grpStore) (g : Nat) :
    keyOf s1 g = keyOf s2 g := by
  unfold keyOf atomsOf grpData
  rw [h]

theorem removeLoop_step_clears (m1 : Manager) (sys1 : Sys) (l2 : List Nat) (g : Nat)
    (d : AtomGroupData) (hd : grpData sys1 g = some d) (hdrec : d.recursive = true)
    (hidx1 : ∀ p ∈ m1.child_dict, keyOf sys1 p.2 = p.1) :
    (∀ a ∈ d.atoms, g ∉ refsOf (removeLoop (m1, sys1) (g :: l2)).2 a) ∧
    (∀ k, lookupA (removeLoop (m1, sys1) (g :: l2)).1.child_dict k ≠ some g) := by
  have hstep : removeLoop (m1, sys1) (g :: l2) =
      removeLoop ({ m1 with child_dict := deleteA m1.child_dict (keyOf (clear_refs sys1 g) g) },
        clear_refs sys1 g) l2 := rfl
  rw [hstep]
  constructor
  · intro a ha hmem
    exact clear_refs_clears sys1 g d hd hdrec a ha (removeLoop_refs_subset l2 _ a g hmem)
  · intro k hlook
    obtain ⟨h3, h4⟩ := mem_deleteA (removeLoop_child_subset l2 _ _ (lookupA_mem hlook))
    have h5 : keyOf sys1 g = k := hidx1 (k, g) h3
    have h6 : keyOf (clear_refs sys1 g) g = keyOf sys1 g :=
      keyOf_congr (clear_refs_grpStore sys1 g) g
    exact h4 ((h6.trans h5).symm)

theorem removeLoop_clears_general (m0 : Manager) (sys : Sys) (l1 l2 : List Nat) (g : Nat)
    (d : AtomGroupData) (hd : grpData sys g = some d) (hdrec : d.recursive = true)
    (hidx : ∀ p ∈ m0.child_dict, keyOf sys p.2 = p.1) :
    (∀ a ∈ d.atoms, g ∉ refsOf (removeLoop (m0, sys) (l1 ++ g :: l2)).2 a) ∧
    (∀ k, lookupA (removeLoop (m0, sys) (l1 ++ g :: l2)).1.child_dict k ≠ some g) := by
  rw [removeLoop_append]
  have hstore1 : (removeLoop (m0, sys) l1).2.grpStore = sys.grpStore :=
    removeLoop_grpStore l1 (m0, sys)
  have hd1 : grpData (removeLoop (m0, sys) l1).2 g = some d := by
    unfold grpData
    rw [hstore1]
    exact hd
  have hidx1 : ∀ p ∈ (removeLoop (m0, sys) l1).1.child_dict,
      keyOf (removeLoop (m0, sys) l1).2 p.2 = p.1 := by
    intro p hp
    rw [keyOf_congr hstore1]
    exact hidx p (removeLoop_child_subset l1 _ p hp)
  exact removeLoop_step_clears _ _ l2 g d hd1 hdrec hidx1

/-- C7: for every recursive group removed through `remove_atm_grps`
from a manager whose index is consistent (every index entry points to a
group stored under that entry's key), afterwards no member atom retains
the group in its owning-group set, and no index entry resolves to the
group: removal clears the atom back-references and deletes the group's
index entry. -/
theorem remove_clears_backrefs_and_index (m : Manager) (sys : Sys) (gs : List Nat) (g : Nat)
    (hg : g ∈ gs)
    (hrec : ∃ d, grpData sys g = some d ∧ d.recursive = true)
    (hidx : ∀ p ∈ m.child_dict, keyOf sys p.2 = p.1) :
    (∀ a ∈ atomsOf sys g, g ∉ refsOf (remove_atm_grps m sys gs).2 a) ∧
    (∀ k, lookupA (remove_atm_grps m sys gs).1.child_dict k ≠ some g) := by
  obtain ⟨d, hd, hdrec⟩ := hrec
  obtain ⟨l1, l2, rfl⟩ := List.append_of_mem hg
  have hatoms : atomsOf sys g = d.atoms := by
    unfold atomsOf
    rw [hd]
    rfl
  rw [hatoms]
  exact removeLoop_clears_general _ sys l1 l2 g d hd hdrec hidx

/-- C7, witness: removing the registered group of the worked example's
registry clears atom 1's back-reference and the index entry. -/
theorem remove_clears_backrefs_and_index_witness :
    (∀ a ∈ atomsOf exSys5b 0, 0 ∉ refsOf (remove_atm_grps exMngr5 exSys5b [0]).2 a) ∧
    (∀ k, lookupA (remove_atm_grps exMngr5 exSys5b [0]).1.child_dict k ≠ some 0) :=
  remove_clears_backrefs_and_index exMngr5 exSys5b [0] 0 (by decide)
    ⟨mkGrpD [1] [], by decide, by decide⟩ (by decide)

/-! ### Encoder determinism (C9) -/

theorem shellId_congr (cfg : ShellCfg) {reg1 reg2 : List EncGroup} {i1 i2 : List EncInter}
    (hr : reg1.Perm reg2) (hi : i1.Perm i2) (g : EncGroup) :
    ∀ k, shellId cfg reg1 i1 g k = shellId cfg reg2 i2 g k
  | 0 => rfl
  | k + 1 => by
      unfold shellId
      dsimp only
      rw [shellId_congr cfg hr hi g k,
        sortNat_eq_of_perm ((hr.filter _).map (canonFeatCode cfg)),
        sortNat_eq_of_perm ((hi.filter _).map (fun t => hashStr t.itype))]

theorem create_shells_perm (cfg : ShellCfg) {reg1 reg2 : List EncGroup} {i1 i2 : List EncInter}
    (hr : reg1.Perm reg2) (hi : i1.Perm i2) :
    (create_shells cfg reg1 i1).Perm (create_shells cfg reg2 i2) := by
  unfold create_shells
  have hf : (fun g => (List.range cfg.numLevels).map (shellId cfg reg1 i1 g)) =
      (fun g => (List.range cfg.numLevels).map (shellId cfg reg2 i2 g)) := by
    funext g
    congr 1
    funext k
    exact shellId_congr cfg hr hi g k
  rw [hf]
  exact perm_flatMap_right _ hr

/-- C9: for a fixed encoder configuration (levels, radius step,
compound-class flag, mode, fold size), `create_shells` followed by
`to_fingerprint` is a pure function of the registry *content*: two
registries (and attached interaction lists) that are permutations of
each other - the same groups added in different orders - produce
identical fingerprints, in both the bit and the count mode.
(`ShellGenerator` is not under `src/`; the encoder is modelled from the
spec, section 4.4, with each level's identifier built from sorted
canonical codes.) -/
theorem fingerprint_perm_invariant (cfg : ShellCfg) (N : Nat) (u c : Bool)
    {reg1 reg2 : List EncGroup} {i1 i2 : List EncInter}
    (hr : reg1.Perm reg2) (hi : i1.Perm i2) :
    to_fingerprint N u c (create_shells cfg reg1 i1) =
      to_fingerprint N u c (create_shells cfg reg2 i2) := by
  have hp : ((create_shells cfg reg1 i1).map (· % N)).Perm
      ((create_shells cfg reg2 i2).map (· % N)) :=
    (create_shells_perm cfg hr hi).map _
  unfold to_fingerprint
  by_cases hu : (u && !c) = true
  · rw [if_pos hu, if_pos hu]
    congr 1
    exact List.toFinset_eq_of_perm _ _ hp
  · rw [if_neg hu, if_neg hu]
    congr 1
    exact Multiset.coe_eq_coe.2 hp

/-- C9, witness: two two-group registries in opposite orders give the
same (count-mode) fingerprint. -/
theorem fingerprint_perm_invariant_witness :
    to_fingerprint 1024 false true (create_shells ⟨2, 1, true⟩
      [⟨["Hydrophobe"], 0, (0, 0, 0)⟩, ⟨["Donor"], 1, (1, 0, 0)⟩]
      [⟨⟨["Hydrophobe"], 0, (0, 0, 0)⟩, ⟨["Donor"], 1, (1, 0, 0)⟩, "Hydrophobic"⟩]) =
    to_fingerprint 1024 false true (create_shells ⟨2, 1, true⟩
      [⟨["Donor"], 1, (1, 0, 0)⟩, ⟨["Hydrophobe"], 0, (0, 0, 0)⟩]
      [⟨⟨["Hydrophobe"], 0, (0, 0, 0)⟩, ⟨["Donor"], 1, (1, 0, 0)⟩, "Hydrophobic"⟩]) :=
  fingerprint_perm_invariant ⟨2, 1, true⟩ 1024 false true (by decide) (by decide)

/-! ### Interaction-set replacement (C3) -/

theorem add_features_frame (sys : Sys) (g : Nat) (fs : List Feature) :
    (add_features sys g fs).interStore = sys.interStore ∧
    (add_features sys g fs).nextIid = sys.nextIid := by
  unfold add_features
  split
  · exact ⟨rfl, rfl⟩
  · exact ⟨rfl, rfl⟩

theorem add_interactions_grp_frame (sys : Sys) (g : Nat) (is : List Nat) :
    (add_interactions_grp sys g is).interStore = sys.interStore ∧
    (add_interactions_grp sys g is).nextIid = sys.nextIid := by
  unfold add_interactions_grp
  split
  · exact ⟨rfl, rfl⟩
  · exact ⟨rfl, rfl⟩

theorem addRefsAll_frame : ∀ (atoms : List Nat) (sys : Sys) (g : Nat),
    (addRefsAll sys atoms g).interStore = sys.interStore ∧
    (addRefsAll sys atoms g).nextIid = sys.nextIid
  | [], _, _ => ⟨rfl, rfl⟩
  | a :: as, sys, g => by
      have h := addRefsAll_frame as (atomAddGrp sys a g) g
      exact ⟨h.1.trans rfl, h.2.trans rfl⟩

theorem mkAtomGroup_frame (sys : Sys) (atoms : List Nat) (f : List Feature) (i : List Nat)
    (r : Bool) :
    (mkAtomGroup sys atoms f i r).2.interStore = sys.interStore ∧
    (mkAtomGroup sys atoms f i r).2.nextIid = sys.nextIid := by
  unfold mkAtomGroup
  dsimp only
  by_cases hr : r = true
  · rw [if_pos hr]
    exact ⟨((addRefsAll_frame (sortNat atoms) _ sys.nextGid).1).trans rfl,
      ((addRefsAll_frame (sortNat atoms) _ sys.nextGid).2).trans rfl⟩
  · rw [if_neg hr]
    exact ⟨rfl, rfl⟩

theorem new_atm_grp_frame (m : Manager) (sys : Sys) (atoms : List Nat) (f : List Feature)
    (i : List Nat) :
    (new_atm_grp m sys atoms f i).2.2.interStore = sys.interStore ∧
    (new_atm_grp m sys atoms f i).2.2.nextIid = sys.nextIid := by
  have hif : ∀ (s : Sys) (g : Nat),
      (if i.isEmpty then (if f.isEmpty then s else add_features s g f)
       else add_interactions_grp (if f.isEmpty then s else add_features s g f) g i).interStore
        = s.interStore ∧
      (if i.isEmpty then (if f.isEmpty then s else add_features s g f)
       else add_interactions_grp (if f.isEmpty then s else add_features s g f) g i).nextIid
        = s.nextIid := by
    intro s g
    by_cases hi2 : i.isEmpty = true
    · rw [if_pos hi2]
      by_cases hf : f.isEmpty = true
      · rw [if_pos hf]
        exact ⟨rfl, rfl⟩
      · rw [if_neg hf]
        exact add_features_frame s g f
    · rw [if_neg hi2]
      have h1 := add_features_frame s g f
      have h2 := add_interactions_grp_frame (if f.isEmpty then s else add_features s g f) g i
      by_cases hf : f.isEmpty = true
      · rw [if_pos hf] at h2 ⊢
        exact h2
      · rw [if_neg hf] at h2 ⊢
        exact ⟨h2.1.trans h1.1, h2.2.trans h1.2⟩
  unfold new_atm_grp
  dsimp only
  cases hl : lookupA m.child_dict (sortNat atoms) with
  | some g0 => exact hif sys g0
  | none =>
      have h := mkAtomGroup_frame sys atoms [] [] true
      have h2 := hif (mkAtomGroup sys atoms [] [] true).2 (mkAtomGroup sys atoms [] [] true).1
      exact ⟨h2.1.trans h.1, h2.2.trans h.2⟩

theorem mkIslandGroups_frame : ∀ (il : List (Nat × List Nat)) (m : Manager) (sys : Sys),
    (mkIslandGroups m sys il).2.1.interStore = sys.interStore ∧
    (mkIslandGroups m sys il).2.1.nextIid = sys.nextIid
  | [], _, _ => ⟨rfl, rfl⟩
  | (iid, atms) :: rest, m, sys => by
      have h1 := new_atm_grp_frame m sys atms ["Hydrophobe"] []
      have h2 := mkIslandGroups_frame rest (new_atm_grp m sys atms ["Hydrophobe"] []).2.1
        (new_atm_grp m sys atms ["Hydrophobe"] []).2.2
      exact ⟨h2.1.trans h1.1, h2.2.trans h1.2⟩

theorem inter_filter_congr {s1 s2 : Sys} (h : s1.interStore = s2.interStore)
    (l : List Nat) (types : List String) :
    inter_filter_by_types s1 l types = inter_filter_by_types s2 l types := by
  unfold inter_filter_by_types interData
  rw [h]

theorem mkNewInters_ids_ge : ∀ (buckets : List ((Nat × Nat) × List Nat)) (env : Env)
    (sys : Sys) (mapping islandGrp : List (Nat × Nat)) (sys2 : Sys) (ids : List Nat),
    mkNewInters env sys mapping islandGrp buckets = some (sys2, ids) →
    ∀ j ∈ ids, sys.nextIid ≤ j
  | [], env, sys, mp, ig, sys2, ids, h, j, hj => by
      unfold mkNewInters at h
      injection h with h1
      injection h1 with h2 h3
      subst h3
      simp at hj
  | (k, iids) :: rest, env, sys, mp, ig, sys2, ids, h, j, hj => by
      unfold mkNewInters at h
      split at h
      · exact absurd h (by simp)
      · split at h
        · split at h
          · dsimp only at h
            split at h
            · exact absurd h (by simp)
            · rename_i r heq
              injection h with h1
              injection h1 with h2 h3
              subst h3
              rcases List.mem_cons.1 hj with h4 | h4
              · subst h4; exact Nat.le_refl _
              · have h5 := mkNewInters_ids_ge rest env _ mp ig r.1 r.2 heq j h4
                exact Nat.le_of_succ_le h5
          · exact absurd h (by simp)
        · exact absurd h (by simp)

theorem mem_mngr_add_interactions : ∀ (new old : List Nat) (j : Nat),
    (j ∈ old ∨ j ∈ new) → j ∈ mngr_add_interactions old new
  | [], old, j, h => by
      rcases h with h | h
      · exact h
      · simp at h
  | x :: xs, old, j, h => by
      apply mem_mngr_add_interactions xs (insertIfAbsent old x) j
      rcases h with h | h
      · left
        unfold insertIfAbsent
        split
        · exact h
        · exact List.mem_append_left _ h
      · rcases List.mem_cons.1 h with h1 | h1
        · subst h1
          left
          unfold insertIfAbsent
          split
          · assumption
          · exact List.mem_append_right _ (List.mem_singleton.2 rfl)
        · exact Or.inr h1

theorem mem_mngr_remove_interactions {l rm : List Nat} {j : Nat} :
    j ∈ mngr_remove_interactions l rm ↔ j ∈ l ∧ j ∉ rm := by
  unfold mngr_remove_interactions
  simp [List.mem_filter]

/-- C3: whenever the merger succeeds, every atom-atom interaction of
type `"Hydrophobic"` present before the merge is removed from the
interaction set, the freshly created island-island interactions are all
present, and the final interaction set is exactly the pre-merge set
with the new interactions added and all original hydrophobic ones
removed.  The well-formedness hypothesis says the pre-merge interaction
ids were allocated below the heap's id counter (true of every state the
program builds). -/
theorem hydrophobic_inters_replaced (env : Env) (st st2 : MState) (newIds : List Nat)
    (hWF : ∀ i ∈ st.inters, i < st.sys.nextIid)
    (h : mergeParts env st = some (st2, newIds)) :
    (∀ i ∈ inter_filter_by_types st.sys st.inters ["Hydrophobic"], i ∉ st2.inters) ∧
    (∀ j ∈ newIds, j ∈ st2.inters) ∧
    st2.inters = mngr_remove_interactions (mngr_add_interactions st.inters newIds)
      (inter_filter_by_types st.sys st.inters ["Hydrophobic"]) := by
  unfold mergeParts at h
  dsimp only at h
  split at h
  · exact absurd h (by simp)
  · rename_i ist hfold
    split at h
    · exact absurd h (by simp)
    · rename_i buckets hpairs
      split at h
      · exact absurd h (by simp)
      · rename_i r2 hmk
        injection h with h1
        injection h1 with h2 h3
        subst h3
        have hframe := mkIslandGroups_frame ist.islands st.mngr st.sys
        have hfilter : inter_filter_by_types (mkIslandGroups st.mngr st.sys ist.islands).2.1
            st.inters ["Hydrophobic"] =
            inter_filter_by_types st.sys st.inters ["Hydrophobic"] :=
          inter_filter_congr hframe.1 _ _
        have hinters : st2.inters = mngr_remove_interactions
            (mngr_add_interactions st.inters r2.2)
            (inter_filter_by_types st.sys st.inters ["Hydrophobic"]) := by
          rw [← h2, ← hfilter]
        have hfresh : ∀ j ∈ r2.2, st.sys.nextIid ≤ j := by
          intro j hj
          have := mkNewInters_ids_ge buckets env _ ist.mapping
            (mkIslandGroups st.mngr st.sys ist.islands).2.2 r2.1 r2.2 hmk j hj
          rw [hframe.2] at this
          exact this
        refine ⟨?_, ?_, hinters⟩
        · intro i hi hmem
          rw [hinters] at hmem
          exact (mem_mngr_remove_interactions.1 hmem).2 hi
        · intro j hj
          rw [hinters]
          refine mem_mngr_remove_interactions.2 ⟨mem_mngr_add_interactions r2.2 st.inters j
            (Or.inr hj), ?_⟩
          intro hjh
          have hlt := hWF j (List.mem_filter.1 hjh).1
          have hge := hfresh j hj
          omega

/-- C3, witness: on the worked example the two original atom-atom
hydrophobic interactions (iids 0, 1) are removed and the island-island
interaction (iid 2) is added. -/
theorem hydrophobic_inters_replaced_witness :
    (∀ i ∈ inter_filter_by_types exSt0.sys exSt0.inters ["Hydrophobic"], i ∉ exSt1.inters) ∧
    (∀ j ∈ [2], j ∈ exSt1.inters) ∧
    exSt1.inters = mngr_remove_interactions (mngr_add_interactions exSt0.inters [2])
      (inter_filter_by_types exSt0.sys exSt0.inters ["Hydrophobic"]) :=
  hydrophobic_inters_replaced exEnv exSt0 exSt1 [2] (by decide) (by decide)

/-! ### Registry invariants under upserts (C1) -/

theorem new_atm_grp_found {m : Manager} {sys : Sys} {atoms : List Nat} {g : Nat}
    (f : List Feature) (i : List Nat) (h : lookupA m.child_dict (sortNat atoms) = some g) :
    new_atm_grp m sys atoms f i = (g, m, applyFI sys g f i) := by
  unfold new_atm_grp applyFI
  dsimp only
  rw [h]

theorem new_atm_grp_new {m : Manager} {sys : Sys} {atoms : List Nat}
    (f : List Feature) (i : List Nat) (h : lookupA m.child_dict (sortNat atoms) = none) :
    new_atm_grp m sys atoms f i =
      ((mkAtomGroup sys atoms [] [] true).1,
       add_atm_grps m (mkAtomGroup sys atoms [] [] true).2 [(mkAtomGroup sys atoms [] [] true).1],
       applyFI (mkAtomGroup sys atoms [] [] true).2 (mkAtomGroup sys atoms [] [] true).1 f i) := by
  unfold new_atm_grp applyFI
  dsimp only
  rw [h]

theorem sortNat_idem (l : List Nat) : sortNat (sortNat l) = sortNat l :=
  List.Sorted.insertionSort_eq (List.sorted_insertionSort _ l)

theorem dedup_toFinset {α : Type} [DecidableEq α] (l : List α) :
    l.dedup.toFinset = l.toFinset := by
  ext x
  simp [List.mem_toFinset, List.mem_dedup]

theorem grpEq_false_of_atoms_ne {sys : Sys} {a b : Nat} {da db : AtomGroupData}
    (ha : grpData sys a = some da) (hb : grpData sys b = some db)
    (hne : da.atoms ≠ db.atoms) : grpEq sys a b = false := by
  unfold grpEq
  rw [ha, hb]
  simp only [decide_eq_false_iff_not]
  intro hcon
  exact hne hcon.2.1

theorem child_lookup_unique : ∀ {cd : List (List Nat × Nat)},
    (cd.map Prod.fst).Pairwise (· ≠ ·) → ∀ {k : List Nat} {g1 g2 : Nat},
    (k, g1) ∈ cd → (k, g2) ∈ cd → g1 = g2
  | [], _, _, _, _, h1, _ => absurd h1 (List.not_mem_nil _)
  | (k0, v0) :: rest, hpw, k, g1, g2, h1, h2 => by
      obtain ⟨hhead, htail⟩ := List.pairwise_cons.1 hpw
      rcases List.mem_cons.1 h1 with e1 | e1 <;> rcases List.mem_cons.1 h2 with e2 | e2
      · injection e1 with ek1 ev1
        injection e2 with ek2 ev2
        rw [ev1, ev2]
      · injection e1 with ek1 ev1
        exact absurd ek1.symm (hhead k (List.mem_map.2 ⟨(k, g2), e2, rfl⟩))
      · injection e2 with ek2 ev2
        exact absurd ek2.symm (hhead k (List.mem_map.2 ⟨(k, g1), e1, rfl⟩))
      · exact child_lookup_unique htail e1 e2

theorem lookupA_append_single_ne {α β : Type} [DecidableEq α] (l : List (α × β)) {k k2 : α}
    (v : β) (h : k2 ≠ k) : lookupA (l ++ [(k, v)]) k2 = lookupA l k2 := by
  cases hl : lookupA l k2 with
  | some w => exact lookupA_append_left _ hl
  | none =>
      rw [lookupA_append_right _ hl]
      show (if k = k2 then some v else lookupA [] k2) = none
      rw [if_neg (fun hh => h hh.symm)]
      rfl

theorem add_features_grpData_ne (sys : Sys) (g h : Nat) (fs : List Feature) (hne : h ≠ g) :
    grpData (add_features sys g fs) h = grpData sys h := by
  unfold add_features
  split
  · rfl
  · exact lookupA_updateA_ne sys.grpStore _ hne

theorem add_features_grpData_self {sys : Sys} {g : Nat} {d : AtomGroupData} (fs : List Feature)
    (hd : grpData sys g = some d) :
    grpData (add_features sys g fs) g =
      some { d with features := sortFeat (d.features ++ fs).dedup, hashCache := none } := by
  unfold add_features
  rw [hd]
  exact lookupA_updateA_self _ _ _

theorem add_interactions_grpData_ne (sys : Sys) (g h : Nat) (is : List Nat) (hne : h ≠ g) :
    grpData (add_interactions_grp sys g is) h = grpData sys h := by
  unfold add_interactions_grp
  split
  · rfl
  · exact lookupA_updateA_ne sys.grpStore _ hne

theorem add_interactions_grpData_self {sys : Sys} {g : Nat} {d : AtomGroupData} (is : List Nat)
    (hd : grpData sys g = some d) :
    grpData (add_interactions_grp sys g is) g =
      some { d with inters := (d.inters ++ is).dedup } := by
  unfold add_interactions_grp
  rw [hd]
  exact lookupA_updateA_self _ _ _

theorem add_features_nextGid (sys : Sys) (g : Nat) (fs : List Feature) :
    (add_features sys g fs).nextGid = sys.nextGid := by
  unfold add_features
  split
  · rfl
  · rfl

theorem add_interactions_nextGid (sys : Sys) (g : Nat) (is : List Nat) :
    (add_interactions_grp sys g is).nextGid = sys.nextGid := by
  unfold add_interactions_grp
  split
  · rfl
  · rfl

theorem applyFI_nextGid (sys : Sys) (g : Nat) (f : List Feature) (i : List Nat) :
    (applyFI sys g f i).nextGid = sys.nextGid := by
  unfold applyFI
  dsimp only
  by_cases hi2 : i.isEmpty = true
  · rw [if_pos hi2]
    by_cases hf : f.isEmpty = true
    · rw [if_pos hf]
    · rw [if_neg hf, add_features_nextGid]
  · rw [if_neg hi2, add_interactions_nextGid]
    by_cases hf : f.isEmpty = true
    · rw [if_pos hf]
    · rw [if_neg hf, add_features_nextGid]

theorem applyFI_grpData_ne (sys : Sys) (g h : Nat) (f : List Feature) (i : List Nat)
    (hne : h ≠ g) : grpData (applyFI sys g f i) h = grpData sys h := by
  unfold applyFI
  dsimp only
  by_cases hi2 : i.isEmpty = true
  · rw [if_pos hi2]
    by_cases hf : f.isEmpty = true
    · rw [if_pos hf]
    · rw [if_neg hf]
      exact add_features_grpData_ne sys g h f hne
  · rw [if_neg hi2, add_interactions_grpData_ne _ _ _ _ hne]
    by_cases hf : f.isEmpty = true
    · rw [if_pos hf]
    · rw [if_neg hf]
      exact add_features_grpData_ne sys g h f hne

theorem applyFI_union (sys : Sys) (g : Nat) (f : List Feature) (i : List Nat)
    (d : AtomGroupData) (hd : grpData sys g = some d) :
    ∃ d2, grpData (applyFI sys g f i) g = some d2 ∧
      d2.atoms = d.atoms ∧
      d2.features.toFinset = d.features.toFinset ∪ f.toFinset ∧
      d2.inters.toFinset = d.inters.toFinset ∪ i.toFinset := by
  have hfeq : f.isEmpty = true → f.toFinset = ∅ := fun h => by
    rw [List.isEmpty_iff.1 h]
    rfl
  have hieq : i.isEmpty = true → i.toFinset = ∅ := fun h => by
    rw [List.isEmpty_iff.1 h]
    rfl
  unfold applyFI
  dsimp only
  by_cases hi2 : i.isEmpty = true
  · rw [if_pos hi2]
    by_cases hf : f.isEmpty = true
    · rw [if_pos hf]
      exact ⟨d, hd, rfl, by rw [hfeq hf, Finset.union_empty],
        by rw [hieq hi2, Finset.union_empty]⟩
    · rw [if_neg hf]
      refine ⟨_, add_features_grpData_self f hd, rfl, ?_,
        by rw [hieq hi2, Finset.union_empty]⟩
      show (sortFeat (d.features ++ f).dedup).toFinset = _
      rw [sortFeat_toFinset, dedup_toFinset, List.toFinset_append]
  · rw [if_neg hi2]
    by_cases hf : f.isEmpty = true
    · rw [if_pos hf]
      refine ⟨_, add_interactions_grpData_self i hd, rfl,
        by rw [hfeq hf, Finset.union_empty], ?_⟩
      show ((d.inters ++ i).dedup).toFinset = _
      rw [dedup_toFinset, List.toFinset_append]
    · rw [if_neg hf]
      refine ⟨_, add_interactions_grpData_self i (add_features_grpData_self f hd), rfl, ?_, ?_⟩
      · show (sortFeat (d.features ++ f).dedup).toFinset = _
        rw [sortFeat_toFinset, dedup_toFinset, List.toFinset_append]
      · show ((d.inters ++ i).dedup).toFinset = _
        rw [dedup_toFinset, List.toFinset_append]

theorem add_features_store_bound (sys : Sys) (g : Nat) (fs : List Feature) (n : Nat)
    (h5 : ∀ q ∈ sys.grpStore, q.1 < n) :
    ∀ q ∈ (add_features sys g fs).grpStore, q.1 < n := by
  unfold add_features
  split
  · exact h5
  · rename_i d heq
    intro q hq
    rcases mem_updateA hq with hq1 | hq1
    · subst hq1
      exact h5 (g, d) (lookupA_mem heq)
    · exact h5 _ hq1

theorem add_interactions_store_bound (sys : Sys) (g : Nat) (is : List Nat) (n : Nat)
    (h5 : ∀ q ∈ sys.grpStore, q.1 < n) :
    ∀ q ∈ (add_interactions_grp sys g is).grpStore, q.1 < n := by
  unfold add_interactions_grp
  split
  · exact h5
  · rename_i d heq
    intro q hq
    rcases mem_updateA hq with hq1 | hq1
    · subst hq1
      exact h5 (g, d) (lookupA_mem heq)
    · exact h5 _ hq1

theorem applyFI_store_bound (sys : Sys) (g : Nat) (f : List Feature) (i : List Nat) (n : Nat)
    (h5 : ∀ q ∈ sys.grpStore, q.1 < n) :
    ∀ q ∈ (applyFI sys g f i).grpStore, q.1 < n := by
  unfold applyFI
  dsimp only
  by_cases hi2 : i.isEmpty = true
  · rw [if_pos hi2]
    by_cases hf : f.isEmpty = true
    · rw [if_pos hf]
      exact h5
    · rw [if_neg hf]
      exact add_features_store_bound sys g f n h5
  · rw [if_neg hi2]
    by_cases hf : f.isEmpty = true
    · rw [if_pos hf]
      exact add_interactions_store_bound sys g i n h5
    · rw [if_neg hf]
      exact add_interactions_store_bound _ g i n (add_features_store_bound sys g f n h5)

theorem addRefsAll_grpStore : ∀ (atoms : List Nat) (sys : Sys) (g : Nat),
    (addRefsAll sys atoms g).grpStore = sys.grpStore ∧
    (addRefsAll sys atoms g).nextGid = sys.nextGid
  | [], _, _ => ⟨rfl, rfl⟩
  | a :: as, sys, g => by
      have h := addRefsAll_grpStore as (atomAddGrp sys a g) g
      exact ⟨h.1.trans rfl, h.2.trans rfl⟩

theorem mkAtomGroup_spec (sys : Sys) (atoms : List Nat) :
    (mkAtomGroup sys atoms [] [] true).1 = sys.nextGid ∧
    (mkAtomGroup sys atoms [] [] true).2.grpStore =
      sys.grpStore ++ [(sys.nextGid, ⟨sortNat atoms, [], [], none, true, false⟩)] ∧
    (mkAtomGroup sys atoms [] [] true).2.nextGid = sys.nextGid + 1 := by
  unfold mkAtomGroup
  dsimp only
  rw [if_pos rfl]
  exact ⟨rfl, (addRefsAll_grpStore (sortNat atoms) _ sys.nextGid).1.trans rfl,
    (addRefsAll_grpStore (sortNat atoms) _ sys.nextGid).2.trans rfl⟩

theorem upsert_preserves_inv (m : Manager) (sys : Sys) (atoms : List Nat)
    (f : List Feature) (i : List Nat) (hinv : InvM m sys) :
    InvM (new_atm_grp m sys atoms f i).2.1 (new_atm_grp m sys atoms f i).2.2 := by
  obtain ⟨h1, h2, h3, h4, h5⟩ := hinv
  cases hl : lookupA m.child_dict (sortNat atoms) with
  | some g =>
      rw [new_atm_grp_found f i hl]
      refine ⟨h1, h2, ?_, ?_, ?_⟩
      · rintro ⟨pk, pg⟩ hp
        obtain ⟨d, hd, hda, hds⟩ := h3 _ hp
        by_cases hpg : pg = g
        · subst hpg
          obtain ⟨d2, hd2, hd2a, _, _⟩ := applyFI_union sys pg f i d hd
          exact ⟨d2, hd2, by rw [hd2a]; exact hda, by rw [hd2a]; exact hds⟩
        · exact ⟨d, (applyFI_grpData_ne sys g pg f i hpg).trans hd, hda, hds⟩
      · intro p hp
        rw [applyFI_nextGid]
        exact h4 p hp
      · simp only [applyFI_nextGid]
        exact applyFI_store_bound sys g f i sys.nextGid h5
  | none =>
      rw [new_atm_grp_new f i hl]
      obtain ⟨hg1, hgstore, hgnext⟩ := mkAtomGroup_spec sys atoms
      rw [hg1]
      have hFnone : lookupA sys.grpStore sys.nextGid = none :=
        (lookupA_eq_none _ _).2 (fun q hq => Nat.ne_of_lt (h5 q hq))
      have hF2 : grpData (mkAtomGroup sys atoms [] [] true).2 sys.nextGid =
          some (⟨sortNat atoms, [], [], none, true, false⟩ : AtomGroupData) := by
        show lookupA (mkAtomGroup sys atoms [] [] true).2.grpStore sys.nextGid = _
        rw [hgstore, lookupA_append_right _ hFnone]
        show (if sys.nextGid = sys.nextGid then
          some (⟨sortNat atoms, [], [], none, true, false⟩ : AtomGroupData)
          else lookupA [] sys.nextGid) = _
        rw [if_pos rfl]
      have hF3 : ∀ h : Nat, h ≠ sys.nextGid →
          grpData (mkAtomGroup sys atoms [] [] true).2 h = grpData sys h := by
        intro h hne
        show lookupA (mkAtomGroup sys atoms [] [] true).2.grpStore h = lookupA sys.grpStore h
        rw [hgstore]
        exact lookupA_append_single_ne _ _ hne
      have hOld : ∀ p ∈ m.child_dict,
          grpData (mkAtomGroup sys atoms [] [] true).2 p.2 = grpData sys p.2 :=
        fun p hp => hF3 p.2 (Nat.ne_of_lt (h4 p hp))
      have hkey : keyOf (mkAtomGroup sys atoms [] [] true).2 sys.nextGid = sortNat atoms := by
        show sortNat (atomsOf (mkAtomGroup sys atoms [] [] true).2 sys.nextGid) = sortNat atoms
        unfold atomsOf grpData
        rw [show lookupA (mkAtomGroup sys atoms [] [] true).2.grpStore sys.nextGid =
          some (⟨sortNat atoms, [], [], none, true, false⟩ : AtomGroupData) from hF2]
        exact sortNat_idem atoms
      have hchild : (add_atm_grps m (mkAtomGroup sys atoms [] [] true).2
          [sys.nextGid]).child_dict = m.child_dict ++ [(sortNat atoms, sys.nextGid)] := by
        show updateA m.child_dict
          (keyOf (mkAtomGroup sys atoms [] [] true).2 sys.nextGid) sys.nextGid = _
        rw [hkey]
        exact updateA_of_lookup_none _ hl
      have hgrps : (add_atm_grps m (mkAtomGroup sys atoms [] [] true).2
          [sys.nextGid]).atm_grps = m.atm_grps ++ [sys.nextGid] := by
        show dedupByAux (grpEq (mkAtomGroup sys atoms [] [] true).2) []
          (m.atm_grps ++ [sys.nextGid]) = _
        apply dedupByAux_eq_self
        · intro s hs
          simp at hs
        · rw [List.pairwise_append]
          refine ⟨?_, List.pairwise_singleton _ _, ?_⟩
          · rw [h1, List.pairwise_map]
            apply List.Pairwise.imp_of_mem ?_ (List.pairwise_map.1 h2)
            intro p q hp hq hne
            obtain ⟨dp, hdp, hdpa, _⟩ := h3 p hp
            obtain ⟨dq, hdq, hdqa, _⟩ := h3 q hq
            refine grpEq_false_of_atoms_ne ((hOld p hp).trans hdp) ((hOld q hq).trans hdq) ?_
            rw [hdpa, hdqa]
            exact hne
          · intro a ha b hb
            rw [List.mem_singleton] at hb
            subst hb
            rw [h1] at ha
            obtain ⟨p, hp, hpa⟩ := List.mem_map.1 ha
            obtain ⟨dp, hdp, hdpa, _⟩ := h3 p hp
            refine grpEq_false_of_atoms_ne (a := a) (hpa ▸ (hOld p hp).trans hdp) hF2 ?_
            rw [hdpa]
            exact (lookupA_eq_none _ _).1 hl p hp
      refine ⟨?_, ?_, ?_, ?_, ?_⟩
      · rw [hgrps, hchild, List.map_append, ← h1]
        rfl
      · rw [hchild, List.map_append, List.pairwise_append]
        refine ⟨h2, List.pairwise_singleton _ _, ?_⟩
        intro a ha b hb
        rw [show List.map Prod.fst [((sortNat atoms : List Nat), sys.nextGid)] =
          [sortNat atoms] from rfl] at hb
        rw [List.mem_singleton] at hb
        subst hb
        obtain ⟨p, hp, hpa⟩ := List.mem_map.1 ha
        exact hpa ▸ (lookupA_eq_none _ _).1 hl p hp
      · intro p hp
        rw [hchild] at hp
        rcases List.mem_append.1 hp with hp1 | hp1
        · obtain ⟨d, hd, hda, hds⟩ := h3 p hp1
          refine ⟨d, ?_, hda, hds⟩
          have hne : p.2 ≠ sys.nextGid := Nat.ne_of_lt (h4 p hp1)
          show grpData (applyFI (mkAtomGroup sys atoms [] [] true).2 sys.nextGid f i) p.2 = some d
          rw [applyFI_grpData_ne _ _ _ _ _ hne, hF3 p.2 hne]
          exact hd
        · rw [List.mem_singleton] at hp1
          subst hp1
          obtain ⟨d2, hd2, hd2a, _, _⟩ := applyFI_union _ sys.nextGid f i _ hF2
          refine ⟨d2, hd2, ?_, ?_⟩
          · rw [hd2a]
          · rw [hd2a]
            exact sortNat_idem atoms
      · intro p hp
        rw [hchild] at hp
        simp only [applyFI_nextGid]
        rw [hgnext]
        rcases List.mem_append.1 hp with hp1 | hp1
        · exact Nat.lt_succ_of_lt (h4 p hp1)
        · rw [List.mem_singleton] at hp1
          subst hp1
          exact Nat.lt_succ_self _
      · simp only [applyFI_nextGid]
        rw [hgnext]
        apply applyFI_store_bound
        rw [hgstore]
        intro q hq
        rcases List.mem_append.1 hq with hq1 | hq1
        · exact Nat.lt_succ_of_lt (h5 q hq1)
        · rw [List.mem_singleton] at hq1
          subst hq1
          exact Nat.lt_succ_self _

theorem runFrom_inv : ∀ (calls : List UpsertCall) (s : Manager × Sys),
    InvM s.1 s.2 → InvM (runFrom s calls).1 (runFrom s calls).2
  | [], _, h => h
  | c :: rest, s, h =>
      runFrom_inv rest (applyUpsert s c)
        (upsert_preserves_inv s.1 s.2 c.atoms c.features c.inters h)

theorem runUpserts_inv (calls : List UpsertCall) :
    InvM (runUpserts calls).1 (runUpserts calls).2 :=
  runFrom_inv calls (emptyManager, emptySys)
    ⟨rfl, List.Pairwise.nil, fun p hp => absurd hp (List.not_mem_nil p),
     fun p hp => absurd hp (List.not_mem_nil p), fun q hq => absurd hq (List.not_mem_nil q)⟩

theorem upsert_post_lookup (m : Manager) (sys : Sys) (atoms : List Nat) (f : List Feature)
    (i : List Nat) (hinv : InvM m sys) :
    lookupA (new_atm_grp m sys atoms f i).2.1.child_dict (sortNat atoms) =
      some (new_atm_grp m sys atoms f i).1 := by
  obtain ⟨h1, h2, h3, h4, h5⟩ := hinv
  cases hl : lookupA m.child_dict (sortNat atoms) with
  | some g =>
      rw [new_atm_grp_found f i hl]
      exact hl
  | none =>
      rw [new_atm_grp_new f i hl]
      obtain ⟨hg1, hgstore, hgnext⟩ := mkAtomGroup_spec sys atoms
      rw [hg1]
      have hFnone : lookupA sys.grpStore sys.nextGid = none :=
        (lookupA_eq_none _ _).2 (fun q hq => Nat.ne_of_lt (h5 q hq))
      have hF2 : grpData (mkAtomGroup sys atoms [] [] true).2 sys.nextGid =
          some (⟨sortNat atoms, [], [], none, true, false⟩ : AtomGroupData) := by
        show lookupA (mkAtomGroup sys atoms [] [] true).2.grpStore sys.nextGid = _
        rw [hgstore, lookupA_append_right _ hFnone]
        show (if sys.nextGid = sys.nextGid then
          some (⟨sortNat atoms, [], [], none, true, false⟩ : AtomGroupData)
          else lookupA [] sys.nextGid) = _
        rw [if_pos rfl]
      have hkey : keyOf (mkAtomGroup sys atoms [] [] true).2 sys.nextGid = sortNat atoms := by
        show sortNat (atomsOf (mkAtomGroup sys atoms [] [] true).2 sys.nextGid) = sortNat atoms
        unfold atomsOf grpData
        rw [show lookupA (mkAtomGroup sys atoms [] [] true).2.grpStore sys.nextGid =
          some (⟨sortNat atoms, [], [], none, true, false⟩ : AtomGroupData) from hF2]
        exact sortNat_idem atoms
      show lookupA (updateA m.child_dict
        (keyOf (mkAtomGroup sys atoms [] [] true).2 sys.nextGid) sys.nextGid)
        (sortNat atoms) = some sys.nextGid
      rw [hkey]
      exact lookupA_updateA_self _ _ _

theorem upsert_repeat (m : Manager) (sys : Sys) (hinv : InvM m sys)
    (A : List Nat) (f : List Feature) (i : List Nat) (A2 : List Nat) (f2 : List Feature)
    (i2 : List Nat) (hperm : A.Perm A2) :
    (new_atm_grp (new_atm_grp m sys A f i).2.1 (new_atm_grp m sys A f i).2.2 A2 f2 i2).1 =
      (new_atm_grp m sys A f i).1 := by
  have hpost := upsert_post_lookup m sys A f i hinv
  have hfound : lookupA (new_atm_grp m sys A f i).2.1.child_dict (sortNat A2) =
      some (new_atm_grp m sys A f i).1 := by
    rw [sortNat_eq_of_perm hperm.symm]
    exact hpost
  rw [new_atm_grp_found f2 i2 hfound]

theorem inv_key_unique (m : Manager) (sys : Sys) (hinv : InvM m sys) (g1 g2 : Nat)
    (h1m : g1 ∈ m.atm_grps) (h2m : g2 ∈ m.atm_grps)
    (hk : keyOf sys g1 = keyOf sys g2) : g1 = g2 := by
  obtain ⟨h1, h2, h3, _, _⟩ := hinv
  rw [h1] at h1m h2m
  obtain ⟨⟨pk, pg⟩, hp, hpa⟩ := List.mem_map.1 h1m
  obtain ⟨⟨qk, qg⟩, hq, hqa⟩ := List.mem_map.1 h2m
  dsimp only at hpa hqa
  subst hpa
  subst hqa
  obtain ⟨dp, hdp, hdpa, hdps⟩ := h3 _ hp
  obtain ⟨dq, hdq, hdqa, hdqs⟩ := h3 _ hq
  dsimp only at hdp hdpa hdq hdqa
  have hk1 : keyOf sys pg = pk := by
    unfold keyOf atomsOf grpData
    rw [hdp]
    show sortNat dp.atoms = pk
    rw [hdps]
    exact hdpa
  have hk2 : keyOf sys qg = qk := by
    unfold keyOf atomsOf grpData
    rw [hdq]
    show sortNat dq.atoms = qk
    rw [hdqs]
    exact hdqa
  have hkk : pk = qk := by rw [← hk1, ← hk2, hk]
  subst hkk
  exact child_lookup_unique h2 hp hq

theorem upsert_union (m : Manager) (sys : Sys) (atoms : List Nat) (f : List Feature)
    (i : List Nat) (hinv : InvM m sys) :
    (featureNames (new_atm_grp m sys atoms f i).2.2 (new_atm_grp m sys atoms f i).1).toFinset =
      (featureNames sys (new_atm_grp m sys atoms f i).1).toFinset ∪ f.toFinset ∧
    (grpInters (new_atm_grp m sys atoms f i).2.2 (new_atm_grp m sys atoms f i).1).toFinset =
      (grpInters sys (new_atm_grp m sys atoms f i).1).toFinset ∪ i.toFinset := by
  obtain ⟨h1, h2, h3, h4, h5⟩ := hinv
  cases hl : lookupA m.child_dict (sortNat atoms) with
  | some g =>
      rw [new_atm_grp_found f i hl]
      dsimp only
      obtain ⟨d, hd, hda, hds⟩ := h3 _ (lookupA_mem hl)
      obtain ⟨d2, hd2, _, hd2f, hd2i⟩ := applyFI_union sys g f i d hd
      constructor
      · unfold featureNames grpData
        rw [show lookupA (applyFI sys g f i).grpStore g = some d2 from hd2,
          show lookupA sys.grpStore g = some d from hd]
        exact hd2f
      · unfold grpInters grpData
        rw [show lookupA (applyFI sys g f i).grpStore g = some d2 from hd2,
          show lookupA sys.grpStore g = some d from hd]
        exact hd2i
  | none =>
      rw [new_atm_grp_new f i hl]
      obtain ⟨hg1, hgstore, hgnext⟩ := mkAtomGroup_spec sys atoms
      rw [hg1]
      dsimp only
      have hFnone : lookupA sys.grpStore sys.nextGid = none :=
        (lookupA_eq_none _ _).2 (fun q hq => Nat.ne_of_lt (h5 q hq))
      have hF2 : grpData (mkAtomGroup sys atoms [] [] true).2 sys.nextGid =
          some (⟨sortNat atoms, [], [], none, true, false⟩ : AtomGroupData) := by
        show lookupA (mkAtomGroup sys atoms [] [] true).2.grpStore sys.nextGid = _
        rw [hgstore, lookupA_append_right _ hFnone]
        show (if sys.nextGid = sys.nextGid then
          some (⟨sortNat atoms, [], [], none, true, false⟩ : AtomGroupData)
          else lookupA [] sys.nextGid) = _
        rw [if_pos rfl]
      obtain ⟨d2, hd2, _, hd2f, hd2i⟩ := applyFI_union _ sys.nextGid f i _ hF2
      constructor
      · unfold featureNames grpData
        rw [show lookupA (applyFI (mkAtomGroup sys atoms [] [] true).2 sys.nextGid f i).grpStore
          sys.nextGid = some d2 from hd2, hFnone]
        rw [show ((none : Option AtomGroupData).map AtomGroupData.features).getD [] =
          ([] : List Feature) from rfl]
        exact hd2f
      · unfold grpInters grpData
        rw [show lookupA (applyFI (mkAtomGroup sys atoms [] [] true).2 sys.nextGid f i).grpStore
          sys.nextGid = some d2 from hd2, hFnone]
        rw [show ((none : Option AtomGroupData).map AtomGroupData.inters).getD [] =
          ([] : List Nat) from rfl]
        exact hd2i

/-- C1: For every sequence of upsert calls (`AtomGroupsManager.new_atm_grp`)
starting from a fresh registry, (a) the registry never holds two groups with
the same atom-set key, (b) a repeated upsert with the same atom set (in any
order) returns the very same group, and (c) the features and interactions of
the returned group grow monotonically by union with the supplied ones. -/
theorem upsert_registry_invariants (calls : List UpsertCall) :
    (∀ g1 g2, g1 ∈ (runUpserts calls).1.atm_grps → g2 ∈ (runUpserts calls).1.atm_grps →
      keyOf (runUpserts calls).2 g1 = keyOf (runUpserts calls).2 g2 → g1 = g2) ∧
    (∀ (A : List Nat) (f : List Feature) (i : List Nat) (A2 : List Nat)
      (f2 : List Feature) (i2 : List Nat), A.Perm A2 →
      (new_atm_grp
        (new_atm_grp (runUpserts calls).1 (runUpserts calls).2 A f i).2.1
        (new_atm_grp (runUpserts calls).1 (runUpserts calls).2 A f i).2.2 A2 f2 i2).1 =
      (new_atm_grp (runUpserts calls).1 (runUpserts calls).2 A f i).1) ∧
    (∀ (A : List Nat) (f : List Feature) (i : List Nat),
      (featureNames (new_atm_grp (runUpserts calls).1 (runUpserts calls).2 A f i).2.2
        (new_atm_grp (runUpserts calls).1 (runUpserts calls).2 A f i).1).toFinset =
        (featureNames (runUpserts calls).2
          (new_atm_grp (runUpserts calls).1 (runUpserts calls).2 A f i).1).toFinset ∪
          f.toFinset ∧
      (grpInters (new_atm_grp (runUpserts calls).1 (runUpserts calls).2 A f i).2.2
        (new_atm_grp (runUpserts calls).1 (runUpserts calls).2 A f i).1).toFinset =
        (grpInters (runUpserts calls).2
          (new_atm_grp (runUpserts calls).1 (runUpserts calls).2 A f i).1).toFinset ∪
          i.toFinset) := by
  have hinv := runUpserts_inv calls
  exact ⟨fun g1 g2 h1 h2 hk => inv_key_unique _ _ hinv g1 g2 h1 h2 hk,
    fun A f i A2 f2 i2 hperm => upsert_repeat _ _ hinv A f i A2 f2 i2 hperm,
    fun A f i => upsert_union _ _ A f i hinv⟩

theorem upsert_registry_invariants_witness :
    List.Perm [2, 1] [1, 2] ∧
    (new_atm_grp
      (new_atm_grp (runUpserts []).1 (runUpserts []).2 [2, 1] ["F"] [0]).2.1
      (new_atm_grp (runUpserts []).1 (runUpserts []).2 [2, 1] ["F"] [0]).2.2
      [1, 2] ["G"] [1]).1 =
    (new_atm_grp (runUpserts []).1 (runUpserts []).2 [2, 1] ["F"] [0]).1 :=
  ⟨by decide,
   (upsert_registry_invariants []).2.1 [2, 1] ["F"] [0] [1, 2] ["G"] [1] (by decide)⟩
